import Mathlib

/-!
Verification of the chart loader core of `internal/chart/v3/loader/load.go`:
the deep merge engine `MergeMaps`, the multi-document values reader
`LoadValues`, and the in-memory bundle assembler `LoadFiles`.  External
collaborators of the core (the YAML decoders, the structural validator and
the archive loader) are supplied as explicit parameters, following the
boundary contracts stated for them.
-/

namespace HelmLoader

/-- A YAML-like configuration value: the payload of a Go map from string to
arbitrary interface values, represented as a closed recursive datatype
(null, bool, number, string, sequence, mapping).  A Go
`map[string]interface` value is modelled as an association list whose keys
are unique; uniqueness is captured by the well-formedness predicate below
where a proof needs it. -/
inductive Value where
  | null : Value
  | bool : Bool → Value
  | num : Int → Value
  | str : String → Value
  | seq : List Value → Value
  | map : List (String × Value) → Value

/-- Go map indexing `a[k]` on the association-list model: the value of the
first binding of `k`, if any. -/
def alookup (k : String) : List (String × Value) → Option Value
  | [] => none
  | (k', v) :: rest => if k' = k then some v else alookup k rest

/-- Go map assignment `out[k] = v` on the association-list model: replace
the binding of `k` in place, or append a fresh binding at the end. -/
def setKey (k : String) (v : Value) : List (String × Value) → List (String × Value)
  | [] => [(k, v)]
  | (k', v') :: rest => if k' = k then (k, v) :: rest else (k', v') :: setKey k v rest

/-- Go map membership test `_, ok := l[k]`. -/
def containsKey (l : List (String × Value)) (k : String) : Bool :=
  l.any (fun kv => kv.1 == k)

/-- `MergeMaps` from load.go.  The output starts as a copy of `a`; each
binding `(k, v)` of `b` is then folded in: when `v` is a mapping and the
current value at `k` is also a mapping the two are merged recursively,
otherwise `v` replaces the value at `k`. -/
def MergeMaps : List (String × Value) → List (String × Value) → List (String × Value)
  | a, [] => a
  | a, (k, v) :: rest =>
    match v, alookup k a with
    | Value.map mv, some (Value.map mo) =>
        MergeMaps (setKey k (Value.map (MergeMaps mo mv)) a) rest
    | _, _ => MergeMaps (setKey k v a) rest
termination_by a b => sizeOf b
decreasing_by all_goals simp_wf <;> omega

/-- Boolean key-uniqueness of one association-list level. -/
def nodupKeys : List (String × Value) → Bool
  | [] => true
  | (k, _) :: rest => !(rest.any (fun kv => kv.1 == k)) && nodupKeys rest

mutual

/-- Well-formedness of a value as a Go value: every mapping reachable
through mappings and sequences has unique keys. -/
def Value.wf : Value → Bool
  | Value.null => true
  | Value.bool _ => true
  | Value.num _ => true
  | Value.str _ => true
  | Value.seq xs => wfVals xs
  | Value.map kvs => nodupKeys kvs && wfKVs kvs

/-- Well-formedness of every value of a list. -/
def wfVals : List Value → Bool
  | [] => true
  | x :: xs => x.wf && wfVals xs

/-- Well-formedness of every value of an association list. -/
def wfKVs : List (String × Value) → Bool
  | [] => true
  | kv :: rest => kv.2.wf && wfKVs rest

end

/-- The per-key contract of the deep merge engine: how the value of one key
of the merge result is determined by the values of that key in the two
inputs.  A key of the overlay whose value there and in the base are both
mappings gets the recursive merge; any other key of the overlay gets the
overlay value unconditionally; a key absent from the overlay keeps the
base value. -/
def mergedLookup (x y : Option Value) : Option Value :=
  match y with
  | none => x
  | some v =>
    match v, x with
    | Value.map mv, some (Value.map mo) => some (Value.map (MergeMaps mo mv))
    | _, _ => some v

theorem MergeMaps_nil (a : List (String × Value)) : MergeMaps a [] = a := by
  rw [MergeMaps.eq_def]

theorem MergeMaps_cons (a : List (String × Value)) (k : String) (v : Value)
    (rest : List (String × Value)) :
    MergeMaps a ((k, v) :: rest) =
      match v, alookup k a with
      | Value.map mv, some (Value.map mo) =>
          MergeMaps (setKey k (Value.map (MergeMaps mo mv)) a) rest
      | _, _ => MergeMaps (setKey k v a) rest := by
  rw [MergeMaps.eq_def]

theorem strBeq_comm (a b : String) : (a == b) = (b == a) := by
  by_cases h : a = b
  · simp [h]
  · simp [h, Ne.symm h]

theorem alookup_setKey_self (k : String) (v : Value) (l : List (String × Value)) :
    alookup k (setKey k v l) = some v := by
  induction l with
  | nil => simp [setKey, alookup]
  | cons kv rest ih =>
    obtain ⟨k', v'⟩ := kv
    by_cases h : k' = k
    · simp [setKey, h, alookup]
    · simp [setKey, h, alookup, ih]

theorem alookup_setKey_ne (j k : String) (v : Value) (l : List (String × Value))
    (h : j ≠ k) : alookup j (setKey k v l) = alookup j l := by
  have hkj : ¬ (k = j) := fun hh => h hh.symm
  induction l with
  | nil => simp [setKey, alookup, hkj]
  | cons kv rest ih =>
    obtain ⟨k', v'⟩ := kv
    by_cases hk : k' = k
    · subst hk
      simp [setKey, alookup, hkj]
    · simp [setKey, hk, alookup, ih]

theorem containsKey_eq_isSome (l : List (String × Value)) (k : String) :
    containsKey l k = (alookup k l).isSome := by
  induction l with
  | nil => simp [containsKey, alookup]
  | cons kv rest ih =>
    obtain ⟨k', v'⟩ := kv
    by_cases h : k' = k
    · simp [containsKey, alookup, h]
    · have hb : (k' == k) = false := by simpa using h
      simp only [containsKey, List.any_cons, hb, Bool.false_or, alookup, if_neg h]
      exact ih

theorem alookup_eq_none_of_not_contains (l : List (String × Value)) (k : String)
    (h : containsKey l k = false) : alookup k l = none := by
  rw [containsKey_eq_isSome] at h
  cases hh : alookup k l with
  | none => rfl
  | some v => rw [hh] at h; simp at h

theorem containsKey_of_mem (l : List (String × Value)) (kv : String × Value)
    (h : kv ∈ l) : containsKey l kv.1 = true := by
  simp only [containsKey, List.any_eq_true]
  exact ⟨kv, h, by simp⟩

theorem containsKey_setKey (l : List (String × Value)) (k : String) (v : Value)
    (j : String) : containsKey (setKey k v l) j = (containsKey l j || (j == k)) := by
  induction l with
  | nil =>
    simp only [setKey, containsKey, List.any_cons, List.any_nil, Bool.or_false,
      Bool.false_or]
    exact strBeq_comm k j
  | cons kv rest ih =>
    obtain ⟨k', v'⟩ := kv
    by_cases hk : k' = k
    · subst hk
      have hset : setKey k' v ((k', v') :: rest) = (k', v) :: rest := by
        simp [setKey]
      rw [hset]
      simp only [containsKey, List.any_cons]
      rw [strBeq_comm j k']
      cases hkj : (k' == j) <;>
        cases hy : (rest.any fun kv => kv.1 == j) <;> rfl
    · simp only [setKey, if_neg hk, containsKey, List.any_cons]
      rw [show containsKey (setKey k v rest) j
            = ((setKey k v rest).any fun kv => kv.1 == j) from rfl] at ih
      rw [show containsKey rest j = (rest.any fun kv => kv.1 == j) from rfl] at ih
      rw [ih, Bool.or_assoc]

theorem keys_setKey (l : List (String × Value)) (k : String) (v : Value) :
    (setKey k v l).map Prod.fst =
      if containsKey l k then l.map Prod.fst else l.map Prod.fst ++ [k] := by
  induction l with
  | nil => simp [setKey, containsKey]
  | cons kv rest ih =>
    obtain ⟨k', v'⟩ := kv
    by_cases hk : k' = k
    · simp [setKey, hk, containsKey]
    · by_cases hc : containsKey rest k <;>
        simp_all [setKey, hk, containsKey, ih]

theorem nodupKeys_setKey (l : List (String × Value)) (k : String) (v : Value)
    (h : nodupKeys l = true) : nodupKeys (setKey k v l) = true := by
  induction l with
  | nil => simp [setKey, nodupKeys, containsKey]
  | cons kv rest ih =>
    obtain ⟨k', v'⟩ := kv
    have h1 : containsKey rest k' = false ∧ nodupKeys rest = true := by
      revert h; simp [nodupKeys, containsKey]
    by_cases hk : k' = k
    · subst hk
      have hset : setKey k' v ((k', v') :: rest) = (k', v) :: rest := by
        simp [setKey]
      rw [hset]
      show (!containsKey rest k' && nodupKeys rest) = true
      rw [h1.1, h1.2]; rfl
    · have hset : setKey k v ((k', v') :: rest) = (k', v') :: setKey k v rest := by
        simp [setKey, hk]
      rw [hset]
      show (!containsKey (setKey k v rest) k' && nodupKeys (setKey k v rest)) = true
      have hb : (k' == k) = false := by simpa using hk
      rw [containsKey_setKey, h1.1, ih h1.2, hb]
      rfl

theorem mergedLookup_none (x : Option Value) : mergedLookup x none = x := rfl

theorem mergedLookup_some_mapmap (mo mv : List (String × Value)) :
    mergedLookup (some (Value.map mo)) (some (Value.map mv))
      = some (Value.map (MergeMaps mo mv)) := rfl

theorem mergedLookup_some_other (x : Option Value) (v : Value)
    (h : ∀ mv mo, v = Value.map mv → x = some (Value.map mo) → False) :
    mergedLookup x (some v) = some v := by
  cases v
  case map mv =>
    cases x with
    | none => rfl
    | some w =>
      cases w
      case map mo => exact (h mv mo rfl rfl).elim
      all_goals rfl
  all_goals rfl

theorem mergedLookup_some_isSome (x : Option Value) (w : Value) :
    (mergedLookup x (some w)).isSome = true := by
  cases w
  case map mv =>
    cases x with
    | none => rfl
    | some u =>
      cases u
      all_goals rfl
  all_goals rfl

theorem alookup_MergeMaps (b : List (String × Value)) (hb : nodupKeys b = true)
    (a : List (String × Value)) (k : String) :
    alookup k (MergeMaps a b) = mergedLookup (alookup k a) (alookup k b) := by
  induction b generalizing a with
  | nil => simp [MergeMaps_nil, alookup, mergedLookup]
  | cons kv rest ih =>
    obtain ⟨k', v⟩ := kv
    have hh : containsKey rest k' = false ∧ nodupKeys rest = true := by
      revert hb; simp [nodupKeys, containsKey]
    rw [MergeMaps_cons]
    by_cases hk : k' = k
    · subst hk
      have hnone : alookup k' rest = none :=
        alookup_eq_none_of_not_contains _ _ hh.1
      have halo : alookup k' ((k', v) :: rest) = some v := by simp [alookup]
      rw [halo]
      split
      · next mv mo heq =>
        rw [ih hh.2, alookup_setKey_self, hnone, mergedLookup_none, heq,
          mergedLookup_some_mapmap]
      · next hcatch =>
        rw [ih hh.2, alookup_setKey_self, hnone, mergedLookup_none,
          mergedLookup_some_other _ _ hcatch]
    · have hne : k ≠ k' := fun hhh => hk hhh.symm
      have htail : alookup k ((k', v) :: rest) = alookup k rest := by
        simp [alookup, hk]
      rw [htail]
      split <;> rw [ih hh.2, alookup_setKey_ne _ _ _ _ hne]

theorem nodupKeys_MergeMaps (b a : List (String × Value))
    (ha : nodupKeys a = true) : nodupKeys (MergeMaps a b) = true := by
  induction b generalizing a with
  | nil => simpa [MergeMaps_nil]
  | cons kv rest ih =>
    obtain ⟨k', v⟩ := kv
    rw [MergeMaps_cons]
    split
    · exact ih _ (nodupKeys_setKey _ _ _ ha)
    · exact ih _ (nodupKeys_setKey _ _ _ ha)

theorem keys_MergeMaps (b : List (String × Value)) (hb : nodupKeys b = true)
    (a : List (String × Value)) :
    (MergeMaps a b).map Prod.fst =
      a.map Prod.fst ++
        ((b.filter (fun kv => !containsKey a kv.1)).map Prod.fst) := by
  induction b generalizing a with
  | nil => simp [MergeMaps_nil]
  | cons kv rest ih =>
    obtain ⟨k', v⟩ := kv
    have hh : containsKey rest k' = false ∧ nodupKeys rest = true := by
      revert hb; simp [nodupKeys, containsKey]
    have hne : ∀ kv' ∈ rest, (kv'.1 == k') = false := by
      intro kv' hkv'
      have h2 := hh.1
      simp only [containsKey, List.any_eq_false] at h2
      simpa using h2 kv' hkv'
    have hfilter : ∀ w : Value,
        rest.filter (fun kv => !containsKey (setKey k' w a) kv.1)
          = rest.filter (fun kv => !containsKey a kv.1) := by
      intro w
      apply List.filter_congr
      intro kv' hkv'
      simp only [containsKey_setKey, hne kv' hkv', Bool.or_false]
    rw [MergeMaps_cons]
    split
    all_goals
      rw [ih hh.2, hfilter, keys_setKey]
      by_cases hc : containsKey a k' <;>
        simp [hc, List.filter_cons, List.append_assoc]

theorem setKey_of_not_contains (l : List (String × Value)) (k : String) (v : Value)
    (h : containsKey l k = false) : setKey k v l = l ++ [(k, v)] := by
  induction l with
  | nil => simp [setKey]
  | cons kv rest ih =>
    obtain ⟨k', v'⟩ := kv
    have h1 : (k' == k) = false ∧ containsKey rest k = false := by
      revert h; simp [containsKey]
    have hk : ¬ (k' = k) := by simpa using h1.1
    simp [setKey, hk, ih h1.2]

theorem containsKey_append (l1 l2 : List (String × Value)) (k : String) :
    containsKey (l1 ++ l2) k = (containsKey l1 k || containsKey l2 k) := by
  simp [containsKey]

theorem MergeMaps_disjoint (l : List (String × Value)) :
    ∀ acc : List (String × Value),
      (∀ kv ∈ l, containsKey acc kv.1 = false) →
      nodupKeys l = true → MergeMaps acc l = acc ++ l := by
  induction l with
  | nil => intro acc _ _; simp [MergeMaps_nil]
  | cons kv rest ih =>
    intro acc hd hn
    obtain ⟨k, v⟩ := kv
    have hh : containsKey rest k = false ∧ nodupKeys rest = true := by
      revert hn; simp [nodupKeys, containsKey]
    have hknone : alookup k acc = none :=
      alookup_eq_none_of_not_contains _ _ (hd (k, v) (by simp))
    have hset : setKey k v acc = acc ++ [(k, v)] :=
      setKey_of_not_contains _ _ _ (hd (k, v) (by simp))
    have hd' : ∀ kv' ∈ rest, containsKey (acc ++ [(k, v)]) kv'.1 = false := by
      intro kv' hkv'
      have h1 : containsKey acc kv'.1 = false := hd kv' (by simp [hkv'])
      have h2 : (kv'.1 == k) = false := by
        have h3 := hh.1
        simp only [containsKey, List.any_eq_false] at h3
        simpa using h3 kv' hkv'
      rw [containsKey_append, h1, Bool.false_or]
      simp only [containsKey, List.any_cons, List.any_nil, Bool.or_false]
      rw [show ((k, v).1 == kv'.1) = (k == kv'.1) from rfl, strBeq_comm k kv'.1, h2]
    rw [MergeMaps_cons]
    split
    · next mv mo heq => rw [hknone] at heq; exact absurd heq (by simp)
    · rw [hset, ih _ hd' hh.2, List.append_assoc]
      rfl

theorem MergeMaps_nil_left (l : List (String × Value)) (hn : nodupKeys l = true) :
    MergeMaps [] l = l := by
  have h := MergeMaps_disjoint l [] (by intro kv _; simp [containsKey]) hn
  simpa using h

theorem containsKey_eq_keys (l : List (String × Value)) (k : String) :
    containsKey l k = (l.map Prod.fst).any (fun x => x == k) := by
  induction l with
  | nil => rfl
  | cons kv rest ih => simp only [containsKey, List.any_cons, List.map_cons] at ih ⊢; rw [ih]

theorem assoc_ext : ∀ l1 l2 : List (String × Value),
    nodupKeys l1 = true →
    l1.map Prod.fst = l2.map Prod.fst →
    (∀ k, alookup k l1 = alookup k l2) → l1 = l2 := by
  intro l1
  induction l1 with
  | nil =>
    intro l2 _ hk _
    exact (List.map_eq_nil_iff.mp hk.symm).symm
  | cons kv r1 ih =>
    intro l2 h1 hk hl
    obtain ⟨k, v⟩ := kv
    cases l2 with
    | nil => simp at hk
    | cons kv2 r2 =>
      obtain ⟨k2, v2⟩ := kv2
      have hkk : k = k2 ∧ r1.map Prod.fst = r2.map Prod.fst := by
        simpa using hk
      obtain ⟨hk2, hkeys⟩ := hkk
      subst hk2
      have hhv : v = v2 := by
        have := hl k
        simpa [alookup] using this
      subst hhv
      have hnodup : containsKey r1 k = false ∧ nodupKeys r1 = true := by
        revert h1; simp [nodupKeys, containsKey]
      have htail : r1 = r2 := by
        apply ih r2 hnodup.2 hkeys
        intro j
        by_cases hj : j = k
        · subst hj
          have hc2 : containsKey r2 j = false := by
            rw [containsKey_eq_keys, ← hkeys, ← containsKey_eq_keys]
            exact hnodup.1
          rw [alookup_eq_none_of_not_contains _ _ hnodup.1,
            alookup_eq_none_of_not_contains _ _ hc2]
        · have := hl j
          have hkj : ¬ (k = j) := fun hh => hj hh.symm
          simpa [alookup, hkj] using this
      rw [htail]

theorem sizeOf_alookup : ∀ (l : List (String × Value)) (k : String) (v : Value),
    alookup k l = some v → sizeOf v < sizeOf l := by
  intro l
  induction l with
  | nil => intro k v h; simp [alookup] at h
  | cons kv rest ih =>
    intro k v h
    obtain ⟨k', v'⟩ := kv
    by_cases hk : k' = k
    · have hv : v' = v := by
        revert h; simp [alookup, hk]
      subst hv
      simp only [List.cons.sizeOf_spec, Prod.mk.sizeOf_spec]
      omega
    · have h2 : alookup k rest = some v := by
        revert h; simp [alookup, hk]
      have := ih k v h2
      simp only [List.cons.sizeOf_spec, Prod.mk.sizeOf_spec]
      omega

theorem wf_alookup : ∀ (l : List (String × Value)) (k : String) (v : Value),
    wfKVs l = true → alookup k l = some v → v.wf = true := by
  intro l
  induction l with
  | nil => intro k v _ h; simp [alookup] at h
  | cons kv rest ih =>
    intro k v hw h
    obtain ⟨k', v'⟩ := kv
    have hw2 : v'.wf = true ∧ wfKVs rest = true := by
      revert hw; simp [wfKVs]
    by_cases hk : k' = k
    · have hv : v' = v := by
        revert h; simp [alookup, hk]
      subst hv
      exact hw2.1
    · have h2 : alookup k rest = some v := by
        revert h; simp [alookup, hk]
      exact ih k v hw2.2 h2

theorem wf_map_iff (kvs : List (String × Value)) :
    (Value.map kvs).wf = true ↔ (nodupKeys kvs = true ∧ wfKVs kvs = true) := by
  rw [Value.wf]
  simp

theorem MergeMaps_idem_aux : ∀ (n : Nat) (b : List (String × Value)), sizeOf b ≤ n →
    ∀ a : List (String × Value),
      nodupKeys a = true → wfKVs a = true → nodupKeys b = true → wfKVs b = true →
      MergeMaps (MergeMaps a b) b = MergeMaps a b := by
  intro n
  induction n with
  | zero =>
    intro b hsize a _ _ _ _
    exfalso
    cases b with
    | nil => simp at hsize
    | cons x xs =>
      simp only [List.cons.sizeOf_spec] at hsize
      omega
  | succ n ih =>
    intro b hsize a ha hwa hb hwb
    apply assoc_ext
    · exact nodupKeys_MergeMaps _ _ (nodupKeys_MergeMaps _ _ ha)
    · rw [keys_MergeMaps b hb (MergeMaps a b)]
      have hfil : b.filter (fun kv => !containsKey (MergeMaps a b) kv.1) = [] := by
        rw [List.filter_eq_nil_iff]
        intro kv hkv
        have hsome : (alookup kv.1 b).isSome = true := by
          rw [← containsKey_eq_isSome]
          exact containsKey_of_mem _ _ hkv
        obtain ⟨w, hw⟩ := Option.isSome_iff_exists.mp hsome
        have hc : containsKey (MergeMaps a b) kv.1 = true := by
          rw [containsKey_eq_isSome, alookup_MergeMaps b hb, hw]
          exact mergedLookup_some_isSome _ _
        simp [hc]
      rw [hfil]
      simp
    · intro k
      rw [alookup_MergeMaps b hb, alookup_MergeMaps b hb]
      cases hy : alookup k b with
      | none => rw [mergedLookup_none, mergedLookup_none]
      | some v =>
        cases v
        case map mv =>
          have hwmv := wf_alookup _ _ _ hwb hy
          have hmv : nodupKeys mv = true ∧ wfKVs mv = true := (wf_map_iff mv).mp hwmv
          have hsz : sizeOf mv ≤ n := by
            have h1 := sizeOf_alookup _ _ _ hy
            have h2 : sizeOf (Value.map mv) = 1 + sizeOf mv := by
              simp
            omega
          have h0 : MergeMaps [] mv = mv := MergeMaps_nil_left mv hmv.1
          have hmm : MergeMaps mv mv = mv := by
            calc MergeMaps mv mv = MergeMaps (MergeMaps [] mv) mv := by rw [h0]
              _ = MergeMaps [] mv := ih mv hsz [] rfl rfl hmv.1 hmv.2
              _ = mv := h0
          cases hx : alookup k a with
          | none =>
            show some (Value.map (MergeMaps mv mv)) = some (Value.map mv)
            rw [hmm]
          | some w =>
            cases w
            case map mo =>
              have hwmo := wf_alookup _ _ _ hwa hx
              have hmo : nodupKeys mo = true ∧ wfKVs mo = true := (wf_map_iff mo).mp hwmo
              rw [mergedLookup_some_mapmap, mergedLookup_some_mapmap,
                ih mv hsz mo hmo.1 hmo.2 hmv.1 hmv.2]
            all_goals
              show some (Value.map (MergeMaps mv mv)) = some (Value.map mv)
              rw [hmm]
        all_goals rfl

theorem MergeMaps_idem (a b : List (String × Value))
    (ha : nodupKeys a = true) (hwa : wfKVs a = true)
    (hb : nodupKeys b = true) (hwb : wfKVs b = true) :
    MergeMaps (MergeMaps a b) b = MergeMaps a b :=
  MergeMaps_idem_aux (sizeOf b) b (le_refl _) a ha hwa hb hwb

/-- The model of a Go string (a file name or path): its byte/character
sequence. -/
abbrev GoStr := List Char

/-- strings.TrimPrefix: drop the leading occurrence of `p`, or return `s`
unchanged when `p` does not lead it. -/
def goTrimPre (p s : GoStr) : GoStr :=
  if p.isPrefixOf s then s.drop p.length else s

/-- strings.SplitN(s, "/", 2): the segment before the first slash paired
with the remainder, or none when the string has no slash (so the split
has a single part). -/
def splitOnce : GoStr → Option (GoStr × GoStr)
  | [] => none
  | c :: rest =>
    if c = '/' then some ([], rest)
    else (splitOnce rest).map (fun pr => (c :: pr.1, pr.2))

/-- Reverse scan behind filepath.Ext: walk the reversed name accumulating
the suffix until a dot (found: return dot plus suffix) or a slash or the
start (no extension). -/
def fextRev : GoStr → GoStr → GoStr
  | [], _ => []
  | c :: rest, acc =>
    if c = '/' then []
    else if c = '.' then '.' :: acc
    else fextRev rest (c :: acc)

/-- filepath.Ext: the suffix of the final path element beginning at its
last dot, empty when the final element has no dot. -/
def fext (s : GoStr) : GoStr := fextRev s.reverse []

/-- strings.IndexAny(n, "_.") == 0: the name starts with an underscore or
a dot. -/
def excludedKey : GoStr → Bool
  | [] => false
  | c :: _ => c = '_' || c = '.'

def chartYamlName : GoStr := "Chart.yaml".data

def chartLockName : GoStr := "Chart.lock".data

def valuesYamlName : GoStr := "values.yaml".data

def valuesSchemaName : GoStr := "values.schema.json".data

def templatesDir : GoStr := "templates/".data

def chartsDir : GoStr := "charts/".data

def provExt : GoStr := ".prov".data

def tgzExt : GoStr := ".tgz".data

/-- BufferedFile from load.go: an archive file buffered for later
processing, a name plus a byte payload. -/
structure BufferedFile where
  name : GoStr
  data : List Nat
deriving DecidableEq

/-- chart.File.  Modelled from the spec: a buffered-file-like entry of the
assembled bundle, a name plus an unmodified byte payload. -/
structure File where
  name : GoStr
  data : List Nat
deriving DecidableEq

/-- chart.Metadata.  Modelled from the spec: the structured record decoded
from Chart.yaml.  The assembler reads and writes the api-version field and
reads the name, so the model keeps the fields the spec names: api version,
name, version. -/
structure Metadata where
  apiVersion : String
  name : String
  version : String
deriving DecidableEq

def Metadata.empty : Metadata := ⟨"", "", ""⟩

/-- chart.Lock.  Modelled from the spec: an opaque structured record
decoded from Chart.lock; the assembler never inspects its content. -/
structure Lock where
  content : List Nat
deriving DecidableEq

def Lock.empty : Lock := ⟨[]⟩

/-- chart.Chart.  Modelled from the spec where it lies outside load.go:
the bundle entity holding raw, metadata, lock, values, schema, templates,
files and the dependency children. -/
inductive Chart where
  | mk : List File → Option Metadata → Option Lock → List (String × Value) →
      Option (List Nat) → List File → List File → List Chart → Chart

def Chart.raw : Chart → List File
  | Chart.mk r _ _ _ _ _ _ _ => r

def Chart.metadata : Chart → Option Metadata
  | Chart.mk _ m _ _ _ _ _ _ => m

def Chart.lock : Chart → Option Lock
  | Chart.mk _ _ l _ _ _ _ _ => l

def Chart.values : Chart → List (String × Value)
  | Chart.mk _ _ _ v _ _ _ _ => v

def Chart.schema : Chart → Option (List Nat)
  | Chart.mk _ _ _ _ s _ _ _ => s

def Chart.templates : Chart → List File
  | Chart.mk _ _ _ _ _ t _ _ => t

def Chart.files : Chart → List File
  | Chart.mk _ _ _ _ _ _ f _ => f

def Chart.dependencies : Chart → List Chart
  | Chart.mk _ _ _ _ _ _ _ d => d

/-- The fields of the chart under assembly before dependencies are
attached: the mutable state the two passes of LoadFiles thread through. -/
structure AState where
  raw : List File
  metadata : Option Metadata
  lock : Option Lock
  values : List (String × Value)
  schema : Option (List Nat)
  templates : List File
  files : List File

def AState.empty : AState := ⟨[], none, none, [], none, [], []⟩

/-- The chart value assembled from the threaded state and a dependency
list. -/
def buildChart (st : AState) (deps : List Chart) : Chart :=
  Chart.mk st.raw st.metadata st.lock st.values st.schema st.templates st.files deps

/-- Chart.Name(): the metadata name, empty for absent metadata.  Modelled
from the spec (the chart entity lies outside load.go). -/
def chartName (st : AState) : String :=
  match st.metadata with
  | some md => md.name
  | none => ""

/-- The external collaborators of the assembler, following the boundary
contracts: the YAML-to-record decoders behind Chart.yaml and Chart.lock,
the document splitter and per-document mapping decoder behind values.yaml,
the structural validator, and the archive loader used for .tgz subchart
groups.  The Chart.yaml decoder receives the current metadata record,
matching the source call that unmarshals into the existing record; the
document splitter yields the documents read before end of stream together
with an optional read failure that cut the stream short. -/
structure Collab where
  parseChartYaml : List Nat → Metadata → Except String Metadata
  parseLock : List Nat → Except String Lock
  splitDocs : List Nat → List (List Nat) × Option String
  parseDoc : List Nat → Except String (List (String × Value))
  validate : Chart → Option String
  loadArchive : List Nat → Except String Chart

/-- The api-version defaulting performed after each Chart.yaml decode: an
absent api version becomes the v3 default. -/
def defaultApi (md : Metadata) : Metadata :=
  if md.apiVersion = "" then { md with apiVersion := "v3" } else md

/-- The document fold of LoadValues: decode each document into a mapping
and fold it into the accumulator with MergeMaps, the new document
overlaying all previous ones; a decode failure aborts with a wrapped
error naming the offending document. -/
def mergeDocs (cb : Collab) : List (String × Value) → List (List Nat) →
    Except String (List (String × Value))
  | acc, [] => .ok acc
  | acc, d :: rest =>
    match cb.parseDoc d with
    | .error e => .error ("cannot unmarshal yaml document: " ++ e)
    | .ok m => mergeDocs cb (MergeMaps acc m) rest

/-- LoadValues from load.go: split the byte stream into documents, decode
and merge them in encountered order.  A document decode failure or a read
failure other than clean end of stream is fatal; the source loop decodes
every document read before the read failure, so a decode failure among
them is reported first. -/
def LoadValues (cb : Collab) (data : List Nat) :
    Except String (List (String × Value)) :=
  match cb.splitDocs data with
  | (docs, rerr) =>
    match mergeDocs cb [] docs with
    | .error e => .error e
    | .ok v =>
      match rerr with
      | some e => .error ("error reading yaml document: " ++ e)
      | none => .ok v

/-- One iteration of the first pass of LoadFiles: record the file into
raw; a Chart.yaml entry is decoded into the metadata record (created on
first encounter), with the api version defaulted after the decode; a
decode failure aborts, carrying the chart state built so far. -/
def pass1Step (cb : Collab) (st : AState) (f : BufferedFile) :
    Except (AState × String) AState :=
  if f.name = chartYamlName then
    match cb.parseChartYaml f.data (st.metadata.getD Metadata.empty) with
    | .error e =>
        .error
          ({ st with
              raw := st.raw ++ [File.mk f.name f.data]
              metadata := some (st.metadata.getD Metadata.empty) },
            "cannot load Chart.yaml: " ++ e)
    | .ok md =>
        .ok
          { st with
              raw := st.raw ++ [File.mk f.name f.data]
              metadata := some (defaultApi md) }
  else .ok { st with raw := st.raw ++ [File.mk f.name f.data] }

/-- First pass of LoadFiles over the whole input list, in order. -/
def pass1 (cb : Collab) : AState → List BufferedFile → Except (AState × String) AState
  | st, [] => .ok st
  | st, f :: rest =>
    match pass1Step cb st f with
    | .error err => .error err
    | .ok st1 => pass1 cb st1 rest

/-- Append a member to its subchart group, the model of the Go map update
subcharts[cname] = append(...); groups appear in first-encounter order. -/
def addGroup (gs : List (GoStr × List BufferedFile)) (k : GoStr) (f : BufferedFile) :
    List (GoStr × List BufferedFile) :=
  match gs with
  | [] => [(k, [f])]
  | (k', fs) :: rest =>
    if k' = k then (k', fs ++ [f]) :: rest else (k', fs) :: addGroup rest k f

/-- The subchart group key of a charts/ entry: the path segment after the
charts/ prefix, up to the next slash or the end of the name. -/
def groupKey (name : GoStr) : GoStr :=
  ((splitOnce (goTrimPre chartsDir name)).map Prod.fst).getD (goTrimPre chartsDir name)

/-- The switch body of the second pass of LoadFiles, classifying one file:
an already-consumed Chart.yaml is skipped; Chart.lock and values.yaml are
decoded (fatally on failure); values.schema.json bytes are stored
verbatim; templates/ entries join templates; charts/ entries join the
parent files when their extension is .prov and otherwise join their
subchart group under the first segment after charts/; everything else
joins files. -/
def classifyFile (cb : Collab) (st : AState) (gs : List (GoStr × List BufferedFile))
    (f : BufferedFile) :
    Except (AState × String) (AState × List (GoStr × List BufferedFile)) :=
  if f.name = chartYamlName then .ok (st, gs)
  else if f.name = chartLockName then
    match cb.parseLock f.data with
    | .error e =>
        .error ({ st with lock := some Lock.empty }, "cannot load Chart.lock: " ++ e)
    | .ok l => .ok ({ st with lock := some l }, gs)
  else if f.name = valuesYamlName then
    match LoadValues cb f.data with
    | .error e => .error (st, "cannot load values.yaml: " ++ e)
    | .ok v => .ok ({ st with values := v }, gs)
  else if f.name = valuesSchemaName then .ok ({ st with schema := some f.data }, gs)
  else if templatesDir.isPrefixOf f.name then
    .ok ({ st with templates := st.templates ++ [File.mk f.name f.data] }, gs)
  else if chartsDir.isPrefixOf f.name then
    if fext f.name = provExt then
      .ok ({ st with files := st.files ++ [File.mk f.name f.data] }, gs)
    else
      .ok (st, addGroup gs (groupKey f.name)
        (BufferedFile.mk (goTrimPre chartsDir f.name) f.data))
  else .ok ({ st with files := st.files ++ [File.mk f.name f.data] }, gs)

/-- Second pass of LoadFiles: classify every file in input order,
aborting on the first decode failure. -/
def pass2 (cb : Collab) : AState → List (GoStr × List BufferedFile) → List BufferedFile →
    Except (AState × String) (AState × List (GoStr × List BufferedFile))
  | st, gs, [] => .ok (st, gs)
  | st, gs, f :: rest =>
    match classifyFile cb st gs f with
    | .error err => .error err
    | .ok (st1, gs1) => pass2 cb st1 gs1 rest

/-- Termination measure of a buffered-file list: total name length plus a
constant per file. -/
def totL : List BufferedFile → Nat
  | [] => 0
  | f :: rest => f.name.length + 2 + totL rest

/-- Termination measure of a subchart group list. -/
def glen : List (GoStr × List BufferedFile) → Nat
  | [] => 0
  | g :: rest => 1 + totL g.2 + glen rest

/-- The member-name rewriting loop of the default subchart branch: drop
members whose name has no slash, strip the first segment from the rest. -/
def stripMembers : List BufferedFile → List BufferedFile
  | [] => []
  | f :: rest =>
    match splitOnce f.name with
    | none => stripMembers rest
    | some pr => BufferedFile.mk pr.2 f.data :: stripMembers rest

theorem splitOnce_length : ∀ (s : GoStr) (p q : GoStr),
    splitOnce s = some (p, q) → s.length = p.length + 1 + q.length := by
  intro s
  induction s with
  | nil => intro p q h; simp [splitOnce] at h
  | cons c rest ih =>
    intro p q h
    by_cases hc : c = '/'
    · rw [splitOnce, if_pos hc] at h
      obtain ⟨hp, hq⟩ : [] = p ∧ rest = q := by
        constructor <;> [exact congrArg Prod.fst (Option.some.inj h);
          exact congrArg Prod.snd (Option.some.inj h)]
      subst hp; subst hq
      simp only [List.length_cons, List.length_nil]
      omega
    · rw [splitOnce, if_neg hc] at h
      cases hs : splitOnce rest with
      | none => rw [hs] at h; simp at h
      | some pr =>
        rw [hs] at h
        obtain ⟨p', q'⟩ := pr
        have h2 : some (c :: p', q') = some (p, q) := h
        obtain ⟨hp, hq⟩ : c :: p' = p ∧ q' = q := by
          constructor <;> [exact congrArg Prod.fst (Option.some.inj h2);
            exact congrArg Prod.snd (Option.some.inj h2)]
        subst hp; subst hq
        have := ih p' q' hs
        simp only [List.length_cons, this]
        omega

theorem totL_append (l1 l2 : List BufferedFile) :
    totL (l1 ++ l2) = totL l1 + totL l2 := by
  induction l1 with
  | nil => simp [totL]
  | cons f rest ih => simp [totL, ih]; omega

theorem totL_stripMembers : ∀ fs : List BufferedFile,
    totL (stripMembers fs) + fs.length ≤ totL fs := by
  intro fs
  induction fs with
  | nil => simp [stripMembers, totL]
  | cons f rest ih =>
    rw [stripMembers]
    cases hs : splitOnce f.name with
    | none =>
      simp only [totL, List.length_cons]
      omega
    | some pr =>
      obtain ⟨p, q⟩ := pr
      have hlen := splitOnce_length f.name p q hs
      simp only [totL, List.length_cons]
      omega

theorem goTrimPre_length_lt (s : GoStr) (h : chartsDir.isPrefixOf s = true) :
    (goTrimPre chartsDir s).length + 1 ≤ s.length := by
  rw [goTrimPre, if_pos h]
  have hp : chartsDir <+: s := List.isPrefixOf_iff_prefix.mp h
  have hlen : chartsDir.length ≤ s.length := hp.length_le
  have h7 : chartsDir.length = 7 := rfl
  simp only [List.length_drop]
  omega

theorem glen_addGroup (gs : List (GoStr × List BufferedFile)) (k : GoStr)
    (f : BufferedFile) :
    glen (addGroup gs k f) ≤ glen gs + 1 + (f.name.length + 2) := by
  induction gs with
  | nil => simp [addGroup, glen, totL]
  | cons g rest ih =>
    obtain ⟨k', fs⟩ := g
    by_cases h : k' = k
    · simp only [addGroup, if_pos h, glen, totL_append, totL]
      omega
    · simp only [addGroup, if_neg h, glen]
      omega

theorem classifyFile_glen (cb : Collab) (st : AState)
    (gs : List (GoStr × List BufferedFile)) (f : BufferedFile)
    (st1 : AState) (gs1 : List (GoStr × List BufferedFile))
    (h : classifyFile cb st gs f = .ok (st1, gs1)) :
    glen gs1 ≤ glen gs + f.name.length + 2 := by
  unfold classifyFile at h
  split_ifs at h with h1 h2 h3 h4 h5 h6 h7
  · obtain ⟨rfl, rfl⟩ : st = st1 ∧ gs = gs1 := by
      constructor <;> [exact congrArg Prod.fst (Except.ok.inj h);
        exact congrArg Prod.snd (Except.ok.inj h)]
    omega
  · split at h
    · exact absurd h (by simp)
    · have hg : gs = gs1 := congrArg Prod.snd (Except.ok.inj h)
      subst hg; omega
  · split at h
    · exact absurd h (by simp)
    · have hg : gs = gs1 := congrArg Prod.snd (Except.ok.inj h)
      subst hg; omega
  · have hg : gs = gs1 := congrArg Prod.snd (Except.ok.inj h)
    subst hg; omega
  · have hg : gs = gs1 := congrArg Prod.snd (Except.ok.inj h)
    subst hg; omega
  · have hg : gs = gs1 := congrArg Prod.snd (Except.ok.inj h)
    subst hg; omega
  · have hg : gs1 = addGroup gs (groupKey f.name)
        (BufferedFile.mk (goTrimPre chartsDir f.name) f.data) :=
      (congrArg Prod.snd (Except.ok.inj h)).symm
    subst hg
    have ha := glen_addGroup gs (groupKey f.name)
      (BufferedFile.mk (goTrimPre chartsDir f.name) f.data)
    have hlt := goTrimPre_length_lt f.name h6
    simp only at ha
    omega
  · have hg : gs = gs1 := congrArg Prod.snd (Except.ok.inj h)
    subst hg; omega

theorem pass2_glen (cb : Collab) : ∀ (files : List BufferedFile) (st : AState)
    (gs : List (GoStr × List BufferedFile)) (st' : AState)
    (gs' : List (GoStr × List BufferedFile)),
    pass2 cb st gs files = .ok (st', gs') → glen gs' ≤ glen gs + totL files := by
  intro files
  induction files with
  | nil =>
    intro st gs st' gs' h
    have hg : gs = gs' := congrArg Prod.snd (Except.ok.inj h)
    subst hg
    simp [totL]
  | cons f rest ih =>
    intro st gs st' gs' h
    rw [pass2] at h
    cases hc : classifyFile cb st gs f with
    | error err => rw [hc] at h; exact absurd h (by simp)
    | ok pr =>
      obtain ⟨st1, gs1⟩ := pr
      rw [hc] at h
      have h1 := classifyFile_glen cb st gs f st1 gs1 hc
      have h2 := ih st1 gs1 st' gs' h
      simp only [totL]
      omega

/-- String view of a modelled Go string, for error message assembly. -/
def strOf (s : GoStr) : String := String.mk s

theorem strip_measure_lt (fs : List BufferedFile)
    (rest : List (GoStr × List BufferedFile)) :
    2 * totL (stripMembers fs) + 1 < 2 * (1 + totL fs + glen rest) := by
  have hs := totL_stripMembers fs
  omega

/-- The wrapped subchart unpacking error of the group loop, naming the
group and the parent chart. -/
def wrapSubchartErr (st : AState) (n : GoStr) (e : String) : String :=
  "error unpacking subchart " ++ strOf n ++ " in " ++ chartName st ++ ": " ++ e

/-- The naming-consistency error of the .tgz branch, naming the expected
and the actual member name. -/
def tarMismatchErr (st : AState) (n got : GoStr) : String :=
  "error unpacking subchart tar in " ++ chartName st ++ ": expected " ++
    strOf n ++ ", got " ++ strOf got

mutual

/-- LoadFiles from load.go: first pass records raw entries and decodes
metadata, second pass classifies every file, then the missing-metadata
check, structural validation, and the subchart group loop run in that
order; every failure returns the chart built so far together with the
error. -/
def LoadFiles (cb : Collab) (files : List BufferedFile) : Chart × Option String :=
  match pass1 cb AState.empty files with
  | .error (st, e) => (buildChart st [], some e)
  | .ok st1 =>
    match h2 : pass2 cb st1 [] files with
    | .error st_e => (buildChart st_e.1 [], some st_e.2)
    | .ok (st2, gs2) =>
      if st2.metadata.isNone then
        (buildChart st2 [], some "Chart.yaml file is missing")
      else
        match cb.validate (buildChart st2 []) with
        | some e => (buildChart st2 [], some e)
        | none => processGroups cb st2 [] gs2
termination_by 2 * totL files + 1
decreasing_by
  have hg := pass2_glen cb files st1 [] st2 gs2 h2
  have hz : glen [] = 0 := rfl
  omega

/-- The subchart group loop of LoadFiles: groups whose key starts with an
underscore or a dot are skipped; a .tgz group requires its first member to
carry exactly the group key as name and is decoded by the archive loader;
any other group has its members' leading segment stripped (members with no
slash are dropped) and is assembled recursively; each successfully loaded
child is appended to the dependencies, and any failure aborts with a
wrapped error. -/
def processGroups (cb : Collab) (st : AState) (deps : List Chart) :
    List (GoStr × List BufferedFile) → Chart × Option String
  | [] => (buildChart st deps, none)
  | (n, fs) :: rest =>
    if excludedKey n then processGroups cb st deps rest
    else if fext n = tgzExt then
      match fs with
      | [] => (buildChart st deps, some "index out of range")
      | f0 :: _ =>
        if f0.name = n then
          match cb.loadArchive f0.data with
          | .error e => (buildChart st deps, some (wrapSubchartErr st n e))
          | .ok sc => processGroups cb st (deps ++ [sc]) rest
        else (buildChart st deps, some (tarMismatchErr st n f0.name))
    else
      match LoadFiles cb (stripMembers fs) with
      | (_, some e) => (buildChart st deps, some (wrapSubchartErr st n e))
      | (sc, none) => processGroups cb st (deps ++ [sc]) rest
termination_by gs => 2 * glen gs
decreasing_by
  all_goals simp only [glen]
  all_goals first
    | omega
    | apply strip_measure_lt

end

theorem buildChart_raw (st : AState) (deps : List Chart) :
    (buildChart st deps).raw = st.raw := rfl

theorem buildChart_metadata (st : AState) (deps : List Chart) :
    (buildChart st deps).metadata = st.metadata := rfl

theorem buildChart_values (st : AState) (deps : List Chart) :
    (buildChart st deps).values = st.values := rfl

theorem buildChart_files (st : AState) (deps : List Chart) :
    (buildChart st deps).files = st.files := rfl

theorem buildChart_deps (st : AState) (deps : List Chart) :
    (buildChart st deps).dependencies = deps := rfl

theorem charts_pre_not_special (s : GoStr) (h : chartsDir.isPrefixOf s = true) :
    ¬(s = chartYamlName) ∧ ¬(s = chartLockName) ∧ ¬(s = valuesYamlName) ∧
    ¬(s = valuesSchemaName) ∧ templatesDir.isPrefixOf s = false := by
  refine ⟨?_, ?_, ?_, ?_, ?_⟩
  · intro hs; subst hs; exact absurd h (by decide)
  · intro hs; subst hs; exact absurd h (by decide)
  · intro hs; subst hs; exact absurd h (by decide)
  · intro hs; subst hs; exact absurd h (by decide)
  · cases ht : templatesDir.isPrefixOf s with
    | false => rfl
    | true =>
      exfalso
      have h1 : chartsDir <+: s := List.isPrefixOf_iff_prefix.mp h
      have h2 : templatesDir <+: s := List.isPrefixOf_iff_prefix.mp ht
      have h3 : chartsDir <+: templatesDir :=
        List.prefix_of_prefix_length_le h1 h2 (by decide)
      have h4 : chartsDir.isPrefixOf templatesDir = true :=
        List.isPrefixOf_iff_prefix.mpr h3
      exact absurd h4 (by decide)

theorem pass1Step_ok (cb : Collab) (st : AState) (f : BufferedFile) (st1 : AState)
    (h : pass1Step cb st f = .ok st1) :
    st1.raw = st.raw ++ [File.mk f.name f.data] ∧ st1.lock = st.lock ∧
    st1.values = st.values ∧ st1.schema = st.schema ∧
    st1.templates = st.templates ∧ st1.files = st.files := by
  unfold pass1Step at h
  split_ifs at h with h1
  · split at h
    · exact absurd h (by simp)
    · have h2 := Except.ok.inj h
      subst h2
      simp
  · have h2 := Except.ok.inj h
    subst h2
    simp

theorem pass1Step_no_cy (cb : Collab) (st : AState) (f : BufferedFile)
    (h : ¬(f.name = chartYamlName)) :
    pass1Step cb st f = .ok { st with raw := st.raw ++ [File.mk f.name f.data] } := by
  unfold pass1Step
  rw [if_neg h]

theorem pass1_fields (cb : Collab) : ∀ (files : List BufferedFile) (st st' : AState),
    pass1 cb st files = .ok st' →
    st'.raw = st.raw ++ files.map (fun f => File.mk f.name f.data) ∧
    st'.lock = st.lock ∧ st'.values = st.values ∧ st'.schema = st.schema ∧
    st'.templates = st.templates ∧ st'.files = st.files := by
  intro files
  induction files with
  | nil =>
    intro st st' h
    rw [pass1] at h
    have h2 := Except.ok.inj h
    subst h2
    simp
  | cons f rest ih =>
    intro st st' h
    rw [pass1] at h
    cases hs : pass1Step cb st f with
    | error err => rw [hs] at h; exact absurd h (by simp)
    | ok st1 =>
      rw [hs] at h
      obtain ⟨hr1, hl1, hv1, hsc1, ht1, hf1⟩ := pass1Step_ok cb st f st1 hs
      obtain ⟨hr2, hl2, hv2, hsc2, ht2, hf2⟩ := ih st1 st' h
      refine ⟨?_, by rw [hl2, hl1], by rw [hv2, hv1], by rw [hsc2, hsc1],
        by rw [ht2, ht1], by rw [hf2, hf1]⟩
      rw [hr2, hr1]
      simp [List.append_assoc]

theorem pass1_no_cy (cb : Collab) : ∀ (files : List BufferedFile) (st : AState),
    (∀ f ∈ files, ¬(f.name = chartYamlName)) →
    pass1 cb st files =
      .ok { st with raw := st.raw ++ files.map (fun f => File.mk f.name f.data) } := by
  intro files
  induction files with
  | nil =>
    intro st _
    rw [pass1]
    simp
  | cons f rest ih =>
    intro st hno
    rw [pass1, pass1Step_no_cy cb st f (hno f (by simp))]
    show pass1 cb { st with raw := st.raw ++ [File.mk f.name f.data] } rest = _
    rw [ih _ (fun g hg => hno g (by simp [hg]))]
    simp [List.append_assoc]

theorem pass1_append (cb : Collab) : ∀ (xs ys : List BufferedFile) (st : AState),
    pass1 cb st (xs ++ ys) =
      match pass1 cb st xs with
      | .error err => .error err
      | .ok st' => pass1 cb st' ys := by
  intro xs
  induction xs with
  | nil =>
    intro ys st
    simp only [List.nil_append]
    rw [show pass1 cb st [] = .ok st from by rw [pass1]]
  | cons f rest ih =>
    intro ys st
    simp only [List.cons_append]
    rw [pass1, pass1]
    cases hs : pass1Step cb st f with
    | error err => rfl
    | ok st1 => exact ih ys st1

/-- The pure grouping effect of the second pass: which subchart group
member each file contributes, ignoring all decoding. -/
def groupOf : List (GoStr × List BufferedFile) → List BufferedFile →
    List (GoStr × List BufferedFile)
  | gs, [] => gs
  | gs, f :: rest =>
    groupOf
      (if chartsDir.isPrefixOf f.name = true ∧ ¬(fext f.name = provExt) then
        addGroup gs (groupKey f.name) (BufferedFile.mk (goTrimPre chartsDir f.name) f.data)
      else gs) rest

theorem classifyFile_ok (cb : Collab) (st : AState)
    (gs : List (GoStr × List BufferedFile)) (f : BufferedFile)
    (st1 : AState) (gs1 : List (GoStr × List BufferedFile))
    (h : classifyFile cb st gs f = .ok (st1, gs1)) :
    st1.raw = st.raw ∧ st1.metadata = st.metadata ∧
    (∀ fl ∈ st1.files, fl ∈ st.files ∨ fext fl.name = provExt ∨
      chartsDir.isPrefixOf fl.name = false) ∧
    gs1 = (if chartsDir.isPrefixOf f.name = true ∧ ¬(fext f.name = provExt) then
        addGroup gs (groupKey f.name) (BufferedFile.mk (goTrimPre chartsDir f.name) f.data)
      else gs) := by
  unfold classifyFile at h
  split_ifs at h with h1 h2 h3 h4 h5 h6 h7
  · have hp := Except.ok.inj h
    have hst : st = st1 := congrArg Prod.fst hp
    have hgs : gs = gs1 := congrArg Prod.snd hp
    subst hst; subst hgs
    have hc : ¬(chartsDir.isPrefixOf f.name = true ∧ ¬(fext f.name = provExt)) := by
      intro hcp
      exact (charts_pre_not_special f.name hcp.1).1 h1
    exact ⟨rfl, rfl, fun fl hfl => Or.inl hfl, (if_neg hc).symm⟩
  · split at h
    · exact absurd h (by simp)
    · have hp := Except.ok.inj h
      have hst : _ = st1 := congrArg Prod.fst hp
      have hgs : gs = gs1 := congrArg Prod.snd hp
      subst hst; subst hgs
      have hc : ¬(chartsDir.isPrefixOf f.name = true ∧ ¬(fext f.name = provExt)) := by
        intro hcp
        exact (charts_pre_not_special f.name hcp.1).2.1 h2
      exact ⟨rfl, rfl, fun fl hfl => Or.inl hfl, (if_neg hc).symm⟩
  · split at h
    · exact absurd h (by simp)
    · have hp := Except.ok.inj h
      have hst : _ = st1 := congrArg Prod.fst hp
      have hgs : gs = gs1 := congrArg Prod.snd hp
      subst hst; subst hgs
      have hc : ¬(chartsDir.isPrefixOf f.name = true ∧ ¬(fext f.name = provExt)) := by
        intro hcp
        exact (charts_pre_not_special f.name hcp.1).2.2.1 h3
      exact ⟨rfl, rfl, fun fl hfl => Or.inl hfl, (if_neg hc).symm⟩
  · have hp := Except.ok.inj h
    have hst : _ = st1 := congrArg Prod.fst hp
    have hgs : gs = gs1 := congrArg Prod.snd hp
    subst hst; subst hgs
    have hc : ¬(chartsDir.isPrefixOf f.name = true ∧ ¬(fext f.name = provExt)) := by
      intro hcp
      exact (charts_pre_not_special f.name hcp.1).2.2.2.1 h4
    exact ⟨rfl, rfl, fun fl hfl => Or.inl hfl, (if_neg hc).symm⟩
  · have hp := Except.ok.inj h
    have hst : _ = st1 := congrArg Prod.fst hp
    have hgs : gs = gs1 := congrArg Prod.snd hp
    subst hst; subst hgs
    have hc : ¬(chartsDir.isPrefixOf f.name = true ∧ ¬(fext f.name = provExt)) := by
      intro hcp
      rw [(charts_pre_not_special f.name hcp.1).2.2.2.2] at h5
      exact absurd h5 (by simp)
    exact ⟨rfl, rfl, fun fl hfl => Or.inl hfl, (if_neg hc).symm⟩
  · have hp := Except.ok.inj h
    have hst : _ = st1 := congrArg Prod.fst hp
    have hgs : gs = gs1 := congrArg Prod.snd hp
    subst hst; subst hgs
    have hc : ¬(chartsDir.isPrefixOf f.name = true ∧ ¬(fext f.name = provExt)) := by
      intro hcp
      exact hcp.2 h7
    refine ⟨rfl, rfl, ?_, (if_neg hc).symm⟩
    intro fl hfl
    simp only [List.mem_append, List.mem_singleton] at hfl
    cases hfl with
    | inl hfl => exact Or.inl hfl
    | inr hfl => subst hfl; exact Or.inr (Or.inl h7)
  · have hp := Except.ok.inj h
    have hst : st = st1 := congrArg Prod.fst hp
    have hgs : _ = gs1 := congrArg Prod.snd hp
    subst hst
    have hc : chartsDir.isPrefixOf f.name = true ∧ ¬(fext f.name = provExt) := ⟨h6, h7⟩
    rw [if_pos hc]
    exact ⟨rfl, rfl, fun fl hfl => Or.inl hfl, hgs.symm⟩
  · have hp := Except.ok.inj h
    have hst : _ = st1 := congrArg Prod.fst hp
    have hgs : gs = gs1 := congrArg Prod.snd hp
    subst hst; subst hgs
    have hc : ¬(chartsDir.isPrefixOf f.name = true ∧ ¬(fext f.name = provExt)) := by
      intro hcp
      exact h6 hcp.1
    refine ⟨rfl, rfl, ?_, (if_neg hc).symm⟩
    intro fl hfl
    simp only [List.mem_append, List.mem_singleton] at hfl
    cases hfl with
    | inl hfl => exact Or.inl hfl
    | inr hfl =>
      subst hfl
      refine Or.inr (Or.inr ?_)
      cases hb : List.isPrefixOf chartsDir f.name with
      | false => rfl
      | true => exact absurd hb h6

theorem pass2_ok (cb : Collab) : ∀ (files : List BufferedFile) (st : AState)
    (gs : List (GoStr × List BufferedFile)) (st' : AState)
    (gs' : List (GoStr × List BufferedFile)),
    pass2 cb st gs files = .ok (st', gs') →
    st'.raw = st.raw ∧ st'.metadata = st.metadata ∧
    (∀ fl ∈ st'.files, fl ∈ st.files ∨ fext fl.name = provExt ∨
      chartsDir.isPrefixOf fl.name = false) ∧
    gs' = groupOf gs files := by
  intro files
  induction files with
  | nil =>
    intro st gs st' gs' h
    rw [pass2] at h
    have hp := Except.ok.inj h
    have hst : st = st' := congrArg Prod.fst hp
    have hgs : gs = gs' := congrArg Prod.snd hp
    subst hst; subst hgs
    exact ⟨rfl, rfl, fun fl hfl => Or.inl hfl, by rw [groupOf]⟩
  | cons f rest ih =>
    intro st gs st' gs' h
    rw [pass2] at h
    cases hc : classifyFile cb st gs f with
    | error err => rw [hc] at h; exact absurd h (by simp)
    | ok pr =>
      obtain ⟨st1, gs1⟩ := pr
      rw [hc] at h
      obtain ⟨hr1, hm1, hf1, hg1⟩ := classifyFile_ok cb st gs f st1 gs1 hc
      obtain ⟨hr2, hm2, hf2, hg2⟩ := ih st1 gs1 st' gs' h
      refine ⟨by rw [hr2, hr1], by rw [hm2, hm1], ?_, ?_⟩
      · intro fl hfl
        cases hf2 fl hfl with
        | inl hin =>
          cases hf1 fl hin with
          | inl h3 => exact Or.inl h3
          | inr h3 => exact Or.inr h3
        | inr hor => exact Or.inr hor
      · rw [hg2, hg1, groupOf]

theorem processGroups_nil (cb : Collab) (st : AState) (deps : List Chart) :
    processGroups cb st deps [] = (buildChart st deps, none) := by
  rw [processGroups.eq_def]

theorem processGroups_cons (cb : Collab) (st : AState) (deps : List Chart)
    (n : GoStr) (fs : List BufferedFile) (rest : List (GoStr × List BufferedFile)) :
    processGroups cb st deps ((n, fs) :: rest) =
      (if excludedKey n then processGroups cb st deps rest
      else if fext n = tgzExt then
        match fs with
        | [] => (buildChart st deps, some "index out of range")
        | f0 :: _ =>
          if f0.name = n then
            match cb.loadArchive f0.data with
            | .error e => (buildChart st deps, some (wrapSubchartErr st n e))
            | .ok sc => processGroups cb st (deps ++ [sc]) rest
          else (buildChart st deps, some (tarMismatchErr st n f0.name))
      else
        match LoadFiles cb (stripMembers fs) with
        | (_, some e) => (buildChart st deps, some (wrapSubchartErr st n e))
        | (sc, none) => processGroups cb st (deps ++ [sc]) rest) := by
  rw [processGroups.eq_def]

theorem processGroups_chart (cb : Collab) : ∀ (gs : List (GoStr × List BufferedFile))
    (st : AState) (deps : List Chart) (c : Chart) (e : Option String),
    processGroups cb st deps gs = (c, e) → ∃ deps2, c = buildChart st deps2 := by
  intro gs
  induction gs with
  | nil =>
    intro st deps c e h
    rw [processGroups_nil] at h
    exact ⟨deps, (congrArg Prod.fst h).symm⟩
  | cons g rest ih =>
    intro st deps c e h
    obtain ⟨n, fs⟩ := g
    rw [processGroups_cons] at h
    split_ifs at h with h1 h2
    · exact ih st deps c e h
    · split at h
      · exact ⟨deps, (congrArg Prod.fst h).symm⟩
      · split_ifs at h with h3
        · split at h
          · exact ⟨deps, (congrArg Prod.fst h).symm⟩
          · exact ih st _ c e h
        · exact ⟨deps, (congrArg Prod.fst h).symm⟩
    · split at h
      · exact ⟨deps, (congrArg Prod.fst h).symm⟩
      · exact ih st _ c e h

theorem processGroups_ok_len (cb : Collab) : ∀ (gs : List (GoStr × List BufferedFile))
    (st : AState) (deps : List Chart) (c : Chart),
    processGroups cb st deps gs = (c, none) →
    c.dependencies.length =
      deps.length + (gs.filter (fun g => !excludedKey g.1)).length := by
  intro gs
  induction gs with
  | nil =>
    intro st deps c h
    have hc : buildChart st deps = c := by
      rw [processGroups_nil] at h
      exact congrArg Prod.fst h
    rw [← hc, buildChart_deps]
    simp
  | cons g rest ih =>
    intro st deps c h
    obtain ⟨n, fs⟩ := g
    rw [processGroups_cons] at h
    split_ifs at h with h1 h2
    · rw [ih st deps c h]
      simp [List.filter_cons, h1]
    · split at h
      · exact absurd (congrArg Prod.snd h) (by simp)
      · split_ifs at h with h3
        · split at h
          · exact absurd (congrArg Prod.snd h) (by simp)
          · rw [ih st _ c h]
            simp [List.filter_cons, h1]
            omega
        · exact absurd (congrArg Prod.snd h) (by simp)
    · split at h
      · exact absurd (congrArg Prod.snd h) (by simp)
      · rw [ih st _ c h]
        simp [List.filter_cons, h1]
        omega

theorem LoadFiles_ok_inv (cb : Collab) (files : List BufferedFile) (c : Chart)
    (h : LoadFiles cb files = (c, none)) :
    ∃ st1 st2 gs2, pass1 cb AState.empty files = .ok st1 ∧
      pass2 cb st1 [] files = .ok (st2, gs2) ∧
      st2.metadata.isNone = false ∧
      cb.validate (buildChart st2 []) = none ∧
      processGroups cb st2 [] gs2 = (c, none) := by
  unfold LoadFiles at h
  split at h
  · exact absurd (congrArg Prod.snd h) (by simp)
  · next st1 hp1 =>
    split at h
    · exact absurd (congrArg Prod.snd h) (by simp)
    · next st2 gs2 hp2 =>
      split at h
      · exact absurd (congrArg Prod.snd h) (by simp)
      · next hmeta =>
        split at h
        · exact absurd (congrArg Prod.snd h) (by simp)
        · next hval =>
          refine ⟨st1, st2, gs2, hp1, hp2, ?_, hval, h⟩
          cases hb : st2.metadata.isNone with
          | false => rfl
          | true => exact absurd hb hmeta

theorem LoadFiles_eq_processGroups (cb : Collab) (files : List BufferedFile)
    (st1 st2 : AState) (gs2 : List (GoStr × List BufferedFile))
    (hp1 : pass1 cb AState.empty files = .ok st1)
    (hp2 : pass2 cb st1 [] files = .ok (st2, gs2))
    (hm : st2.metadata.isNone = false)
    (hv : cb.validate (buildChart st2 []) = none) :
    LoadFiles cb files = processGroups cb st2 [] gs2 := by
  unfold LoadFiles
  simp only [hp1]
  split
  · next st_e heq =>
    rw [hp2] at heq
    exact absurd heq (by simp)
  · next st2' gs2' heq =>
    rw [hp2] at heq
    have hin := Except.ok.inj heq
    have h1 : st2 = st2' := congrArg Prod.fst hin
    have h2 : gs2 = gs2' := congrArg Prod.snd hin
    subst h1; subst h2
    rw [hm]
    simp only [Bool.false_eq_true, if_false]
    rw [hv]

theorem LoadFiles_eq_pass2_error (cb : Collab) (files : List BufferedFile)
    (st1 stE : AState) (msg : String)
    (hp1 : pass1 cb AState.empty files = .ok st1)
    (hp2 : pass2 cb st1 [] files = .error (stE, msg)) :
    LoadFiles cb files = (buildChart stE [], some msg) := by
  unfold LoadFiles
  simp only [hp1]
  split
  · next st_e heq =>
    rw [hp2] at heq
    have hin := Except.error.inj heq
    rw [← hin]
  · next st2' gs2' heq =>
    rw [hp2] at heq
    exact absurd heq (by simp)

theorem LoadFiles_eq_missing (cb : Collab) (files : List BufferedFile)
    (st1 st2 : AState) (gs2 : List (GoStr × List BufferedFile))
    (hp1 : pass1 cb AState.empty files = .ok st1)
    (hp2 : pass2 cb st1 [] files = .ok (st2, gs2))
    (hm : st2.metadata.isNone = true) :
    LoadFiles cb files = (buildChart st2 [], some "Chart.yaml file is missing") := by
  unfold LoadFiles
  simp only [hp1]
  split
  · next st_e heq =>
    rw [hp2] at heq
    exact absurd heq (by simp)
  · next st2' gs2' heq =>
    rw [hp2] at heq
    have hin := Except.ok.inj heq
    have h1 : st2 = st2' := congrArg Prod.fst hin
    subst h1
    rw [hm]
    simp only [if_true]

theorem LoadFiles_eq_pass1_error (cb : Collab) (files : List BufferedFile)
    (stE : AState) (msg : String)
    (hp1 : pass1 cb AState.empty files = .error (stE, msg)) :
    LoadFiles cb files = (buildChart stE [], some msg) := by
  unfold LoadFiles
  rw [hp1]

theorem LoadFiles_eq_validate_error (cb : Collab) (files : List BufferedFile)
    (st1 st2 : AState) (gs2 : List (GoStr × List BufferedFile)) (e : String)
    (hp1 : pass1 cb AState.empty files = .ok st1)
    (hp2 : pass2 cb st1 [] files = .ok (st2, gs2))
    (hm : st2.metadata.isNone = false)
    (hv : cb.validate (buildChart st2 []) = some e) :
    LoadFiles cb files = (buildChart st2 [], some e) := by
  unfold LoadFiles
  simp only [hp1]
  split
  · next st_e heq =>
    rw [hp2] at heq
    exact absurd heq (by simp)
  · next st2' gs2' heq =>
    rw [hp2] at heq
    have hin := Except.ok.inj heq
    have h1 : st2 = st2' := congrArg Prod.fst hin
    have h2 : gs2 = gs2' := congrArg Prod.snd hin
    subst h1; subst h2
    rw [hm]
    simp only [Bool.false_eq_true, if_false]
    rw [hv]

/-- Modelled from the spec: the Chart.yaml decoder collaborator
("structured decode of a YAML-encoded byte blob into the metadata record",
decoding "into the Bundle's metadata record, creating the record on first
encounter"), on the concrete documents used here.  Byte tag 1 stands for a
complete document setting api version, name and version; tag 2 for a
partial document setting only the version, which leaves the other fields
of the received record unchanged as a decode into an existing record does;
tag 9 for a malformed document. -/
def modelParseChartYaml : List Nat → Metadata → Except String Metadata
  | 1 :: _, _ => .ok (Metadata.mk "v3" "mychart" "0.1.0")
  | 2 :: _, md => .ok { md with version := "2.0.0" }
  | 9 :: _, _ => .error "bad yaml"
  | _, md => .ok md

/-- Modelled from the spec: the per-document mapping decoder of the
Multi-Document Configuration Reader ("for each document, parse into a
mapping (empty document, empty mapping)"), on the concrete documents used
here.  An empty document yields the empty mapping; a document starting
with byte 45 (a dash: a top-level sequence, valid YAML that is not a
mapping) fails to decode into a mapping; tag 5 stands for a one-key
mapping document. -/
def modelParseDoc : List Nat → Except String (List (String × Value))
  | [] => .ok []
  | 45 :: _ => .error "cannot unmarshal array into map value"
  | 5 :: _ => .ok [("a", Value.num 1)]
  | _ => .ok []

/-- Modelled from the spec: a concrete instance of the collaborator bundle
for witnesses, with a lock decoder failing on tag 9, a single-document
stream splitter, an always-passing validator, and an archive loader that
rejects every payload. -/
def modelCb : Collab where
  parseChartYaml := modelParseChartYaml
  parseLock := fun d =>
    match d with
    | 9 :: _ => .error "bad lock"
    | _ => .ok (Lock.mk d)
  splitDocs := fun d =>
    match d with
    | [] => ([], none)
    | _ => ([d], none)
  parseDoc := modelParseDoc
  validate := fun _ => none
  loadArchive := fun _ => .error "does not appear to be a gzipped archive"

unseal MergeMaps in
theorem mergeExample1 :
    MergeMaps [("x", Value.map [("a", Value.num 1), ("b", Value.num 2)])]
        [("x", Value.map [("b", Value.num 3)])]
      = [("x", Value.map [("a", Value.num 1), ("b", Value.num 3)])] := rfl

unseal MergeMaps in
theorem mergeExample2 :
    MergeMaps [("x", Value.map [("a", Value.num 1)])]
        [("x", Value.seq [Value.num 1, Value.num 2])]
      = [("x", Value.seq [Value.num 1, Value.num 2])] := rfl

/-- C1: the deep-merge contract of MergeMaps.  Per key: when the overlay
value and the base value are both mappings the result holds their
recursive merge; every other key present in the overlay gets the overlay
value (sequences, scalars and map-versus-non-map mismatches are never
combined); keys only in the base keep the base value and keys only in the
overlay are added — this per-key contract is the definition mergedLookup.
In particular the two concrete examples of the specification hold. -/
theorem claim_C1 :
    (∀ (a b : List (String × Value)), nodupKeys b = true → ∀ k : String,
      alookup k (MergeMaps a b) = mergedLookup (alookup k a) (alookup k b)) ∧
    MergeMaps [("x", Value.map [("a", Value.num 1), ("b", Value.num 2)])]
        [("x", Value.map [("b", Value.num 3)])]
      = [("x", Value.map [("a", Value.num 1), ("b", Value.num 3)])] ∧
    MergeMaps [("x", Value.map [("a", Value.num 1)])]
        [("x", Value.seq [Value.num 1, Value.num 2])]
      = [("x", Value.seq [Value.num 1, Value.num 2])] :=
  ⟨fun a b hb k => alookup_MergeMaps b hb a k, mergeExample1, mergeExample2⟩

theorem claim_C1_witness :
    nodupKeys [("x", Value.num 2)] = true ∧
    alookup "x" (MergeMaps [("y", Value.num 1)] [("x", Value.num 2)])
      = mergedLookup (alookup "x" [("y", Value.num 1)])
          (alookup "x" [("x", Value.num 2)]) :=
  ⟨rfl, claim_C1.1 [("y", Value.num 1)] [("x", Value.num 2)] rfl "x"⟩

/-- C6: the deep merge engine is idempotent in its overlay: for all
well-formed mappings a and b (Go mappings have unique keys at every
level), merging the overlay b a second time changes nothing. -/
theorem claim_C6 (a b : List (String × Value))
    (ha : (Value.map a).wf = true) (hb : (Value.map b).wf = true) :
    MergeMaps (MergeMaps a b) b = MergeMaps a b := by
  obtain ⟨h1, h2⟩ := (wf_map_iff a).mp ha
  obtain ⟨h3, h4⟩ := (wf_map_iff b).mp hb
  exact MergeMaps_idem a b h1 h2 h3 h4

unseal MergeMaps in
theorem claim_C6_witness :
    (Value.map [("x", Value.map [("a", Value.num 1)])]).wf = true ∧
    (Value.map [("x", Value.num 2), ("y", Value.null)]).wf = true ∧
    MergeMaps
        (MergeMaps [("x", Value.map [("a", Value.num 1)])]
          [("x", Value.num 2), ("y", Value.null)])
        [("x", Value.num 2), ("y", Value.null)]
      = MergeMaps [("x", Value.map [("a", Value.num 1)])]
          [("x", Value.num 2), ("y", Value.null)] :=
  ⟨rfl, rfl, claim_C6 _ _ rfl rfl⟩

/-- C7: on every successful assembly the raw sequence of the resulting
bundle is exactly the input buffered files, name for name and byte for
byte, in input order, however each file was classified. -/
theorem claim_C7 (cb : Collab) (files : List BufferedFile) (c : Chart)
    (h : LoadFiles cb files = (c, none)) :
    c.raw = files.map (fun f => File.mk f.name f.data) := by
  obtain ⟨st1, st2, gs2, hp1, hp2, _, _, hpg⟩ := LoadFiles_ok_inv cb files c h
  obtain ⟨hr1, _, _, _, _, _⟩ := pass1_fields cb files AState.empty st1 hp1
  obtain ⟨hr2, _, _, _⟩ := pass2_ok cb files st1 [] st2 gs2 hp2
  obtain ⟨deps2, hc⟩ := processGroups_chart cb gs2 st2 [] c none hpg
  rw [hc, buildChart_raw, hr2, hr1]
  rfl

def exFilesC7 : List BufferedFile :=
  [BufferedFile.mk chartYamlName [1],
    BufferedFile.mk ("templates/deploy.yaml".data) [7, 7]]

def exChartC7 : Chart :=
  Chart.mk [File.mk chartYamlName [1], File.mk ("templates/deploy.yaml".data) [7, 7]]
    (some (Metadata.mk "v3" "mychart" "0.1.0")) none [] none
    [File.mk ("templates/deploy.yaml".data) [7, 7]] [] []

unseal LoadFiles processGroups MergeMaps in
theorem claim_C7_witness :
    LoadFiles modelCb exFilesC7 = (exChartC7, none) ∧
    exChartC7.raw = exFilesC7.map (fun f => File.mk f.name f.data) :=
  ⟨rfl, claim_C7 modelCb exFilesC7 exChartC7 rfl⟩

/-- C8: a subchart group whose key begins with an underscore or a dot
never contributes a dependency: on a successful assembly the dependency
count equals the number of non-excluded groups alone, and no counted
group carries the excluded key; the member files of every subchart group
are excluded from the files sequence (no files entry carries their name)
while still being recorded in raw. -/
theorem claim_C8 (cb : Collab) (files : List BufferedFile) (c : Chart)
    (f : BufferedFile)
    (h : LoadFiles cb files = (c, none)) (hf : f ∈ files)
    (hpre : chartsDir.isPrefixOf f.name = true)
    (hprov : ¬(fext f.name = provExt))
    (hexc : excludedKey (groupKey f.name) = true) :
    File.mk f.name f.data ∈ c.raw ∧
    (∀ fl ∈ c.files, ¬(fl.name = f.name)) ∧
    c.dependencies.length
      = ((groupOf [] files).filter (fun g => !excludedKey g.1)).length ∧
    (∀ g ∈ (groupOf [] files).filter (fun g => !excludedKey g.1),
      ¬(g.1 = groupKey f.name)) := by
  obtain ⟨st1, st2, gs2, hp1, hp2, _, _, hpg⟩ := LoadFiles_ok_inv cb files c h
  obtain ⟨hr1, _, _, _, _, hfl1⟩ := pass1_fields cb files AState.empty st1 hp1
  obtain ⟨hr2, _, hfl2, hgr2⟩ := pass2_ok cb files st1 [] st2 gs2 hp2
  obtain ⟨deps2, hc⟩ := processGroups_chart cb gs2 st2 [] c none hpg
  have hlen := processGroups_ok_len cb gs2 st2 [] c hpg
  refine ⟨?_, ?_, ?_, ?_⟩
  · rw [hc, buildChart_raw, hr2, hr1]
    have : File.mk f.name f.data ∈ files.map (fun g => File.mk g.name g.data) :=
      List.mem_map.mpr ⟨f, hf, rfl⟩
    show File.mk f.name f.data ∈ AState.empty.raw ++ _
    simpa [AState.empty] using this
  · intro fl hfl heq
    rw [hc] at hfl
    have hfl' : fl ∈ st2.files := by
      simpa [buildChart, AState.empty] using hfl
    cases hfl2 fl hfl' with
    | inl hin =>
      rw [hfl1] at hin
      simp [AState.empty] at hin
    | inr hor =>
      cases hor with
      | inl hprov' => rw [heq] at hprov'; exact hprov hprov'
      | inr hpre' => rw [heq, hpre] at hpre'; exact absurd hpre' (by simp)
  · rw [hlen, ← hgr2]
    simp
  · intro g hg heq
    have hni := List.of_mem_filter hg
    rw [heq, hexc] at hni
    exact absurd hni (by simp)

def exFilesC8 : List BufferedFile :=
  [BufferedFile.mk chartYamlName [1],
    BufferedFile.mk ("charts/_helpers/tpl".data) [3]]

def exChartC8 : Chart :=
  Chart.mk [File.mk chartYamlName [1], File.mk ("charts/_helpers/tpl".data) [3]]
    (some (Metadata.mk "v3" "mychart" "0.1.0")) none [] none [] [] []

unseal LoadFiles processGroups MergeMaps in
theorem claim_C8_witness :
    LoadFiles modelCb exFilesC8 = (exChartC8, none) ∧
    BufferedFile.mk ("charts/_helpers/tpl".data) [3] ∈ exFilesC8 ∧
    chartsDir.isPrefixOf ("charts/_helpers/tpl".data) = true ∧
    ¬(fext ("charts/_helpers/tpl".data) = provExt) ∧
    excludedKey (groupKey ("charts/_helpers/tpl".data)) = true ∧
    (File.mk ("charts/_helpers/tpl".data) [3] ∈ exChartC8.raw ∧
      exChartC8.dependencies.length
        = ((groupOf [] exFilesC8).filter (fun g => !excludedKey g.1)).length) := by
  refine ⟨rfl, by decide, by decide, by decide, by decide, ?_, ?_⟩
  · exact (claim_C8 modelCb exFilesC8 exChartC8
      (BufferedFile.mk ("charts/_helpers/tpl".data) [3]) rfl (by decide) (by decide)
      (by decide) (by decide)).1
  · exact (claim_C8 modelCb exFilesC8 exChartC8
      (BufferedFile.mk ("charts/_helpers/tpl".data) [3]) rfl (by decide) (by decide)
      (by decide) (by decide)).2.2.1

theorem charts_append_pre (x : GoStr) :
    chartsDir.isPrefixOf (chartsDir ++ x) = true :=
  List.isPrefixOf_iff_prefix.mpr ⟨x, rfl⟩

theorem goTrimPre_append (p x : GoStr) : goTrimPre p (p ++ x) = x := by
  rw [goTrimPre, if_pos (List.isPrefixOf_iff_prefix.mpr ⟨x, rfl⟩)]
  exact List.drop_left p x

theorem splitOnce_none_tail (c : Char) (n : GoStr)
    (h : splitOnce (c :: n) = none) : splitOnce n = none := by
  rw [splitOnce] at h
  split_ifs at h
  cases hs : splitOnce n with
  | none => rfl
  | some pr => rw [hs] at h; simp at h

theorem splitOnce_append_slash : ∀ (n r : GoStr), splitOnce n = none →
    splitOnce (n ++ '/' :: r) = some (n, r) := by
  intro n
  induction n with
  | nil => intro r _; rw [List.nil_append, splitOnce, if_pos rfl]
  | cons c n' ih =>
    intro r h
    have hc : ¬(c = '/') := by
      intro hcc
      rw [splitOnce, if_pos hcc] at h
      exact absurd h (by simp)
    rw [List.cons_append, splitOnce, if_neg hc, ih r (splitOnce_none_tail c n' h)]
    rfl

theorem append_slash_ne (n r : GoStr) : ¬(n ++ '/' :: r = n) := by
  intro h
  have := congrArg List.length h
  simp at this

/-- The group loop at a .tgz group whose first member's name differs from
the group key: the whole assembly fails with the naming-mismatch error. -/
theorem processGroups_tgz_mismatch (cb : Collab) (st : AState) (deps : List Chart)
    (n : GoStr) (f0 : BufferedFile) (fs' : List BufferedFile)
    (rest : List (GoStr × List BufferedFile))
    (hexc : excludedKey n = false) (hext : fext n = tgzExt)
    (hne : ¬(f0.name = n)) :
    processGroups cb st deps ((n, f0 :: fs') :: rest)
      = (buildChart st deps, some (tarMismatchErr st n f0.name)) := by
  rw [processGroups_cons, if_neg (by rw [hexc]; simp), if_pos hext]
  show (if f0.name = n then _ else _) = _
  rw [if_neg hne]

theorem pass1_cy_other (cb : Collab) (d1 : List Nat) (md : Metadata)
    (f2 : BufferedFile)
    (hmd : cb.parseChartYaml d1 Metadata.empty = .ok md)
    (hne : ¬(f2.name = chartYamlName)) :
    pass1 cb AState.empty [BufferedFile.mk chartYamlName d1, f2] =
      .ok (AState.mk [File.mk chartYamlName d1, File.mk f2.name f2.data]
        (some (defaultApi md)) none [] none [] []) := by
  rw [pass1]
  have hstep : pass1Step cb AState.empty (BufferedFile.mk chartYamlName d1)
      = .ok (AState.mk [File.mk chartYamlName d1] (some (defaultApi md))
          none [] none [] []) := by
    unfold pass1Step
    rw [if_pos rfl]
    have hmd' : cb.parseChartYaml (BufferedFile.mk chartYamlName d1).data
        (AState.empty.metadata.getD Metadata.empty) = .ok md := hmd
    rw [hmd']
    rfl
  rw [hstep]
  show pass1 cb _ [f2] = _
  rw [pass1, pass1Step_no_cy cb _ f2 hne]
  show pass1 cb _ [] = _
  rw [pass1]
  rfl

theorem pass2_cy_charts (cb : Collab) (st : AState) (d1 d : List Nat)
    (name : GoStr)
    (hpre : chartsDir.isPrefixOf name = true) (hprov : ¬(fext name = provExt)) :
    pass2 cb st [] [BufferedFile.mk chartYamlName d1, BufferedFile.mk name d] =
      .ok (st, [(groupKey name, [BufferedFile.mk (goTrimPre chartsDir name) d])]) := by
  rw [pass2]
  have hc1 : classifyFile cb st [] (BufferedFile.mk chartYamlName d1) = .ok (st, []) := by
    unfold classifyFile
    rw [if_pos rfl]
  rw [hc1]
  show pass2 cb st [] [BufferedFile.mk name d] = _
  rw [pass2]
  have hspec := charts_pre_not_special name hpre
  have ht : ¬(templatesDir.isPrefixOf name = true) := by
    rw [hspec.2.2.2.2]
    simp
  have hc2 : classifyFile cb st [] (BufferedFile.mk name d)
      = .ok (st, addGroup [] (groupKey name)
          (BufferedFile.mk (goTrimPre chartsDir name) d)) := by
    unfold classifyFile
    rw [if_neg hspec.1, if_neg hspec.2.1, if_neg hspec.2.2.1, if_neg hspec.2.2.2.1,
      if_neg ht, if_pos hpre, if_neg hprov]
  rw [hc2]
  show pass2 cb st (addGroup [] _ _) [] = _
  rw [pass2]
  rfl

/-- C9: a subchart group whose key has extension .tgz requires the sole
buffered member's name to equal the group key exactly; on a mismatch (for
example an input entry charts/foo.tgz/extra, giving group key foo.tgz and
member name foo.tgz/extra) the whole assembly fails with the
naming-mismatch error naming the expected and the actual name. -/
theorem claim_C9 :
    (∀ (cb : Collab) (st : AState) (deps : List Chart) (n : GoStr)
      (f0 : BufferedFile) (fs' : List BufferedFile)
      (rest : List (GoStr × List BufferedFile)),
      excludedKey n = false → fext n = tgzExt → ¬(f0.name = n) →
      processGroups cb st deps ((n, f0 :: fs') :: rest)
        = (buildChart st deps, some (tarMismatchErr st n f0.name))) ∧
    (∀ (cb : Collab) (d1 d : List Nat) (n r : GoStr) (md : Metadata),
      splitOnce n = none → fext n = tgzExt → excludedKey n = false →
      ¬(fext (chartsDir ++ n ++ '/' :: r) = provExt) →
      cb.parseChartYaml d1 Metadata.empty = .ok md →
      (∀ ch, cb.validate ch = none) →
      (LoadFiles cb [BufferedFile.mk chartYamlName d1,
          BufferedFile.mk (chartsDir ++ n ++ '/' :: r) d]).2
        = some ("error unpacking subchart tar in " ++ (defaultApi md).name
            ++ ": expected " ++ strOf n ++ ", got " ++ strOf (n ++ '/' :: r))) := by
  constructor
  · intro cb st deps n f0 fs' rest hexc hext hne
    exact processGroups_tgz_mismatch cb st deps n f0 fs' rest hexc hext hne
  · intro cb d1 d n r md hsplit hext hexc hprov hmd hv
    have hpre : chartsDir.isPrefixOf (chartsDir ++ n ++ '/' :: r) = true :=
      charts_append_pre _
    have hne2 : ¬((chartsDir ++ n ++ '/' :: r) = chartYamlName) :=
      (charts_pre_not_special _ hpre).1
    have hp1 := pass1_cy_other cb d1 md
      (BufferedFile.mk (chartsDir ++ n ++ '/' :: r) d) hmd hne2
    have hp2 := pass2_cy_charts cb
      (AState.mk [File.mk chartYamlName d1,
        File.mk (chartsDir ++ n ++ '/' :: r) d]
        (some (defaultApi md)) none [] none [] [])
      d1 d (chartsDir ++ n ++ '/' :: r) hpre hprov
    have htrim : goTrimPre chartsDir (chartsDir ++ n ++ '/' :: r) = n ++ '/' :: r :=
      goTrimPre_append _ _
    have hkey : groupKey (chartsDir ++ n ++ '/' :: r) = n := by
      rw [groupKey, htrim, splitOnce_append_slash n r hsplit]
      rfl
    rw [htrim, hkey] at hp2
    have hLF := LoadFiles_eq_processGroups cb
      [BufferedFile.mk chartYamlName d1,
        BufferedFile.mk (chartsDir ++ n ++ '/' :: r) d]
      (AState.mk [File.mk chartYamlName d1,
        File.mk (chartsDir ++ n ++ '/' :: r) d]
        (some (defaultApi md)) none [] none [] [])
      (AState.mk [File.mk chartYamlName d1,
        File.mk (chartsDir ++ n ++ '/' :: r) d]
        (some (defaultApi md)) none [] none [] [])
      [(n, [BufferedFile.mk (n ++ '/' :: r) d])]
      hp1 hp2 rfl (hv _)
    rw [hLF, processGroups_tgz_mismatch cb _ [] n
      (BufferedFile.mk (n ++ '/' :: r) d) [] [] hexc hext (append_slash_ne n r)]
    rfl

theorem claim_C9_witness :
    splitOnce ("foo.tgz".data) = none ∧
    fext ("foo.tgz".data) = tgzExt ∧
    excludedKey ("foo.tgz".data) = false ∧
    ¬(fext (chartsDir ++ "foo.tgz".data ++ '/' :: "extra".data) = provExt) ∧
    modelCb.parseChartYaml [1] Metadata.empty
      = .ok (Metadata.mk "v3" "mychart" "0.1.0") ∧
    (LoadFiles modelCb [BufferedFile.mk chartYamlName [1],
        BufferedFile.mk (chartsDir ++ "foo.tgz".data ++ '/' :: "extra".data) [3]]).2
      = some ("error unpacking subchart tar in "
          ++ (defaultApi (Metadata.mk "v3" "mychart" "0.1.0")).name
          ++ ": expected " ++ strOf ("foo.tgz".data)
          ++ ", got " ++ strOf ("foo.tgz".data ++ '/' :: "extra".data)) := by
  refine ⟨by decide, by decide, by decide, by decide, rfl, ?_⟩
  exact claim_C9.2 modelCb [1] [3] ("foo.tgz".data) ("extra".data)
    (Metadata.mk "v3" "mychart" "0.1.0") (by decide) (by decide) (by decide)
    (by decide) rfl (fun ch => rfl)

theorem mergeDocs_error (cb : Collab) : ∀ (pre : List (List Nat))
    (acc : List (String × Value)) (bad : List Nat) (rest : List (List Nat))
    (e : String),
    (∀ x ∈ pre, ∃ m, cb.parseDoc x = .ok m) → cb.parseDoc bad = .error e →
    mergeDocs cb acc (pre ++ bad :: rest)
      = .error ("cannot unmarshal yaml document: " ++ e) := by
  intro pre
  induction pre with
  | nil =>
    intro acc bad rest e _ hbad
    rw [List.nil_append, mergeDocs, hbad]
  | cons x pre' ih =>
    intro acc bad rest e hpre hbad
    obtain ⟨m, hm⟩ := hpre x (by simp)
    rw [List.cons_append, mergeDocs, hm]
    exact ih (MergeMaps acc m) bad rest e (fun y hy => hpre y (by simp [hy])) hbad

theorem LoadValues_doc_error (cb : Collab) (data : List Nat)
    (pre : List (List Nat)) (bad : List Nat) (rest : List (List Nat)) (e : String)
    (hsplit : cb.splitDocs data = (pre ++ bad :: rest, none))
    (hpre : ∀ x ∈ pre, ∃ m, cb.parseDoc x = .ok m)
    (hbad : cb.parseDoc bad = .error e) :
    LoadValues cb data = .error ("cannot unmarshal yaml document: " ++ e) := by
  unfold LoadValues
  rw [hsplit]
  show (match mergeDocs cb [] (pre ++ bad :: rest) with
    | Except.error err =>
        (Except.error err : Except String (List (String × Value)))
    | Except.ok v =>
      match (none : Option String) with
      | some err => Except.error ("error reading yaml document: " ++ err)
      | none => Except.ok v) = _
  rw [mergeDocs_error cb pre [] bad rest e hpre hbad]

theorem loadFiles_values_error (cb : Collab) (d1 d2 : List Nat) (md : Metadata)
    (e : String)
    (hmd : cb.parseChartYaml d1 Metadata.empty = .ok md)
    (hve : LoadValues cb d2 = .error e) :
    LoadFiles cb [BufferedFile.mk chartYamlName d1,
        BufferedFile.mk valuesYamlName d2] =
      (buildChart (AState.mk [File.mk chartYamlName d1, File.mk valuesYamlName d2]
        (some (defaultApi md)) none [] none [] []) [],
       some ("cannot load values.yaml: " ++ e)) := by
  have hbase1 : ¬(valuesYamlName = chartYamlName) := by decide
  have hbase2 : ¬(valuesYamlName = chartLockName) := by decide
  have hp1 := pass1_cy_other cb d1 md (BufferedFile.mk valuesYamlName d2) hmd hbase1
  have hp2 : pass2 cb
      (AState.mk [File.mk chartYamlName d1, File.mk valuesYamlName d2]
        (some (defaultApi md)) none [] none [] []) []
      [BufferedFile.mk chartYamlName d1, BufferedFile.mk valuesYamlName d2]
      = .error (AState.mk [File.mk chartYamlName d1, File.mk valuesYamlName d2]
          (some (defaultApi md)) none [] none [] [],
        "cannot load values.yaml: " ++ e) := by
    rw [pass2]
    have hc1 : classifyFile cb
        (AState.mk [File.mk chartYamlName d1, File.mk valuesYamlName d2]
          (some (defaultApi md)) none [] none [] []) []
        (BufferedFile.mk chartYamlName d1)
        = .ok (AState.mk [File.mk chartYamlName d1, File.mk valuesYamlName d2]
            (some (defaultApi md)) none [] none [] [], []) := by
      unfold classifyFile
      rw [if_pos rfl]
    rw [hc1]
    show pass2 cb _ [] [BufferedFile.mk valuesYamlName d2] = _
    rw [pass2]
    have hc2 : classifyFile cb
        (AState.mk [File.mk chartYamlName d1, File.mk valuesYamlName d2]
          (some (defaultApi md)) none [] none [] []) []
        (BufferedFile.mk valuesYamlName d2)
        = .error (AState.mk [File.mk chartYamlName d1, File.mk valuesYamlName d2]
            (some (defaultApi md)) none [] none [] [],
          "cannot load values.yaml: " ++ e) := by
      unfold classifyFile
      rw [if_neg hbase1, if_neg hbase2, if_pos rfl]
      have hve' : LoadValues cb (BufferedFile.mk valuesYamlName d2).data = .error e := hve
      rw [hve']
    rw [hc2]
  exact LoadFiles_eq_pass2_error cb _ _ _ _ hp1 hp2

theorem loadFiles_lock_after_values (cb : Collab) (d1 d2 d3 : List Nat)
    (md : Metadata) (vs : List (String × Value)) (e : String)
    (hmd : cb.parseChartYaml d1 Metadata.empty = .ok md)
    (hvs : LoadValues cb d2 = .ok vs)
    (hle : cb.parseLock d3 = .error e) :
    LoadFiles cb [BufferedFile.mk chartYamlName d1,
        BufferedFile.mk valuesYamlName d2,
        BufferedFile.mk chartLockName d3] =
      (buildChart (AState.mk
          [File.mk chartYamlName d1, File.mk valuesYamlName d2,
            File.mk chartLockName d3]
          (some (defaultApi md)) (some Lock.empty) vs none [] []) [],
        some ("cannot load Chart.lock: " ++ e)) := by
  have hbv : ¬(valuesYamlName = chartYamlName) := by decide
  have hbvl : ¬(valuesYamlName = chartLockName) := by decide
  have hbl : ¬(chartLockName = chartYamlName) := by decide
  have hp1 : pass1 cb AState.empty [BufferedFile.mk chartYamlName d1,
      BufferedFile.mk valuesYamlName d2, BufferedFile.mk chartLockName d3]
      = .ok (AState.mk [File.mk chartYamlName d1, File.mk valuesYamlName d2,
          File.mk chartLockName d3] (some (defaultApi md)) none [] none [] []) := by
    rw [pass1]
    have hstep : pass1Step cb AState.empty (BufferedFile.mk chartYamlName d1)
        = .ok (AState.mk [File.mk chartYamlName d1] (some (defaultApi md))
            none [] none [] []) := by
      unfold pass1Step
      rw [if_pos rfl]
      have hmd' : cb.parseChartYaml (BufferedFile.mk chartYamlName d1).data
          (AState.empty.metadata.getD Metadata.empty) = .ok md := hmd
      rw [hmd']
      rfl
    rw [hstep]
    show pass1 cb _ [BufferedFile.mk valuesYamlName d2,
      BufferedFile.mk chartLockName d3] = _
    rw [pass1, pass1Step_no_cy cb _ _ hbv]
    show pass1 cb _ [BufferedFile.mk chartLockName d3] = _
    rw [pass1, pass1Step_no_cy cb _ _ hbl]
    show pass1 cb _ [] = _
    rw [pass1]
    rfl
  have hp2 : pass2 cb
      (AState.mk [File.mk chartYamlName d1, File.mk valuesYamlName d2,
        File.mk chartLockName d3] (some (defaultApi md)) none [] none [] []) []
      [BufferedFile.mk chartYamlName d1, BufferedFile.mk valuesYamlName d2,
        BufferedFile.mk chartLockName d3]
      = .error (AState.mk [File.mk chartYamlName d1, File.mk valuesYamlName d2,
          File.mk chartLockName d3] (some (defaultApi md)) (some Lock.empty)
          vs none [] [],
        "cannot load Chart.lock: " ++ e) := by
    rw [pass2]
    have hc1 : classifyFile cb
        (AState.mk [File.mk chartYamlName d1, File.mk valuesYamlName d2,
          File.mk chartLockName d3] (some (defaultApi md)) none [] none [] []) []
        (BufferedFile.mk chartYamlName d1)
        = .ok (AState.mk [File.mk chartYamlName d1, File.mk valuesYamlName d2,
            File.mk chartLockName d3] (some (defaultApi md)) none [] none [] [],
          []) := by
      unfold classifyFile
      rw [if_pos rfl]
    rw [hc1]
    show pass2 cb _ []
      [BufferedFile.mk valuesYamlName d2, BufferedFile.mk chartLockName d3] = _
    rw [pass2]
    have hc2 : classifyFile cb
        (AState.mk [File.mk chartYamlName d1, File.mk valuesYamlName d2,
          File.mk chartLockName d3] (some (defaultApi md)) none [] none [] []) []
        (BufferedFile.mk valuesYamlName d2)
        = .ok (AState.mk [File.mk chartYamlName d1, File.mk valuesYamlName d2,
            File.mk chartLockName d3] (some (defaultApi md)) none vs none [] [],
          []) := by
      unfold classifyFile
      rw [if_neg hbv, if_neg hbvl, if_pos rfl]
      have hvs' : LoadValues cb (BufferedFile.mk valuesYamlName d2).data
          = .ok vs := hvs
      rw [hvs']
    rw [hc2]
    show pass2 cb _ [] [BufferedFile.mk chartLockName d3] = _
    rw [pass2]
    have hc3 : classifyFile cb
        (AState.mk [File.mk chartYamlName d1, File.mk valuesYamlName d2,
          File.mk chartLockName d3] (some (defaultApi md)) none vs none [] []) []
        (BufferedFile.mk chartLockName d3)
        = .error (AState.mk [File.mk chartYamlName d1, File.mk valuesYamlName d2,
            File.mk chartLockName d3] (some (defaultApi md)) (some Lock.empty)
            vs none [] [],
          "cannot load Chart.lock: " ++ e) := by
      unfold classifyFile
      rw [if_neg hbl, if_pos rfl]
      have hle' : cb.parseLock (BufferedFile.mk chartLockName d3).data
          = .error e := hle
      rw [hle']
    rw [hc3]
  exact LoadFiles_eq_pass2_error cb _ _ _ _ hp1 hp2

/-- C10: a values.yaml document that is valid YAML but not a mapping is an
error, not skipped or coerced: when the document splitter yields a
document on which the mapping decoder fails, LoadValues fails with the
wrapped document error, and an assembly containing that values.yaml aborts
with the wrapped values error; only empty or null documents are tolerated,
decoding to the empty mapping (third part, on the concrete decoder model:
the non-mapping document "- a" is rejected while the empty document yields
the empty mapping). -/
theorem claim_C10 :
    (∀ (cb : Collab) (data : List Nat) (pre : List (List Nat)) (bad : List Nat)
      (rest : List (List Nat)) (e : String),
      cb.splitDocs data = (pre ++ bad :: rest, none) →
      (∀ x ∈ pre, ∃ m, cb.parseDoc x = .ok m) →
      cb.parseDoc bad = .error e →
      LoadValues cb data = .error ("cannot unmarshal yaml document: " ++ e)) ∧
    (∀ (cb : Collab) (d1 d2 : List Nat) (md : Metadata) (e : String),
      cb.parseChartYaml d1 Metadata.empty = .ok md →
      LoadValues cb d2 = .error e →
      ∃ c, LoadFiles cb [BufferedFile.mk chartYamlName d1,
          BufferedFile.mk valuesYamlName d2]
        = (c, some ("cannot load values.yaml: " ++ e))) ∧
    modelParseDoc [45, 32, 97] = .error "cannot unmarshal array into map value" ∧
    modelParseDoc [] = .ok [] ∧
    LoadValues modelCb [45, 32, 97]
      = .error "cannot unmarshal yaml document: cannot unmarshal array into map value" := by
  refine ⟨?_, ?_, rfl, rfl, rfl⟩
  · intro cb data pre bad rest e hsplit hpre hbad
    exact LoadValues_doc_error cb data pre bad rest e hsplit hpre hbad
  · intro cb d1 d2 md e hmd hve
    exact ⟨_, loadFiles_values_error cb d1 d2 md e hmd hve⟩

theorem claim_C10_witness :
    modelCb.splitDocs [45, 32, 97] = ([] ++ [45, 32, 97] :: [], none) ∧
    modelCb.parseDoc [45, 32, 97]
      = .error "cannot unmarshal array into map value" ∧
    LoadValues modelCb [45, 32, 97]
      = .error ("cannot unmarshal yaml document: "
          ++ "cannot unmarshal array into map value") := by
  refine ⟨rfl, rfl, ?_⟩
  exact claim_C10.1 modelCb [45, 32, 97] [] [45, 32, 97] []
    "cannot unmarshal array into map value" rfl (by simp) rfl

/-- C5 (amended): parse failures (metadata, lock, values) abort the
enclosing assembly immediately with a wrapped error, but a
structural-validation failure is not the only error class that returns
the partially built bundle: a metadata decode failure returns the bundle
the first pass built up to it (first part), a second-pass lock or values
decode failure returns the bundle accumulated up to it (second part),
that bundle can even carry recovered values — a valid values.yaml
decoded before an invalid Chart.lock leaves its decoded values in the
returned bundle together with the metadata and the full raw sequence
(third part) — and a validation failure likewise returns the accumulated
bundle alongside the validator's error (fourth part). -/
theorem claim_C5 :
    (∀ (cb : Collab) (files : List BufferedFile) (stE : AState) (e : String),
      pass1 cb AState.empty files = .error (stE, e) →
      LoadFiles cb files = (buildChart stE [], some e)) ∧
    (∀ (cb : Collab) (files : List BufferedFile) (st1 stE : AState) (e : String),
      pass1 cb AState.empty files = .ok st1 →
      pass2 cb st1 [] files = .error (stE, e) →
      LoadFiles cb files = (buildChart stE [], some e)) ∧
    (∀ (cb : Collab) (d1 d2 d3 : List Nat) (md : Metadata)
        (vs : List (String × Value)) (e : String),
      cb.parseChartYaml d1 Metadata.empty = .ok md →
      LoadValues cb d2 = .ok vs →
      cb.parseLock d3 = .error e →
      (LoadFiles cb [BufferedFile.mk chartYamlName d1,
          BufferedFile.mk valuesYamlName d2,
          BufferedFile.mk chartLockName d3]).2
        = some ("cannot load Chart.lock: " ++ e) ∧
      (LoadFiles cb [BufferedFile.mk chartYamlName d1,
          BufferedFile.mk valuesYamlName d2,
          BufferedFile.mk chartLockName d3]).1.values = vs ∧
      (LoadFiles cb [BufferedFile.mk chartYamlName d1,
          BufferedFile.mk valuesYamlName d2,
          BufferedFile.mk chartLockName d3]).1.metadata
        = some (defaultApi md) ∧
      (LoadFiles cb [BufferedFile.mk chartYamlName d1,
          BufferedFile.mk valuesYamlName d2,
          BufferedFile.mk chartLockName d3]).1.raw
        = [File.mk chartYamlName d1, File.mk valuesYamlName d2,
            File.mk chartLockName d3]) ∧
    (∀ (cb : Collab) (files : List BufferedFile) (st1 st2 : AState)
        (gs2 : List (GoStr × List BufferedFile)) (e : String),
      pass1 cb AState.empty files = .ok st1 →
      pass2 cb st1 [] files = .ok (st2, gs2) →
      st2.metadata.isNone = false →
      cb.validate (buildChart st2 []) = some e →
      LoadFiles cb files = (buildChart st2 [], some e)) := by
  refine ⟨?_, ?_, ?_, ?_⟩
  · intro cb files stE e hp1
    exact LoadFiles_eq_pass1_error cb files stE e hp1
  · intro cb files st1 stE e hp1 hp2
    exact LoadFiles_eq_pass2_error cb files st1 stE e hp1 hp2
  · intro cb d1 d2 d3 md vs e hmd hvs hle
    rw [loadFiles_lock_after_values cb d1 d2 d3 md vs e hmd hvs hle]
    exact ⟨rfl, rfl, rfl, rfl⟩
  · intro cb files st1 st2 gs2 e hp1 hp2 hm hv
    exact LoadFiles_eq_validate_error cb files st1 st2 gs2 e hp1 hp2 hm hv

unseal LoadFiles processGroups MergeMaps in
theorem claim_C5_cex :
    (LoadFiles modelCb [BufferedFile.mk chartYamlName [1],
        BufferedFile.mk valuesYamlName [5],
        BufferedFile.mk chartLockName [9]]).2
      = some "cannot load Chart.lock: bad lock" ∧
    (LoadFiles modelCb [BufferedFile.mk chartYamlName [1],
        BufferedFile.mk valuesYamlName [5],
        BufferedFile.mk chartLockName [9]]).1.values
      = [("a", Value.num 1)] ∧
    (LoadFiles modelCb [BufferedFile.mk chartYamlName [1],
        BufferedFile.mk valuesYamlName [5],
        BufferedFile.mk chartLockName [9]]).1.metadata
      = some (Metadata.mk "v3" "mychart" "0.1.0") ∧
    (LoadFiles modelCb [BufferedFile.mk chartYamlName [1],
        BufferedFile.mk valuesYamlName [5],
        BufferedFile.mk chartLockName [9]]).1.raw
      = [File.mk chartYamlName [1], File.mk valuesYamlName [5],
          File.mk chartLockName [9]] :=
  ⟨rfl, rfl, rfl, rfl⟩

unseal MergeMaps in
theorem claim_C5_witness :
    modelCb.parseChartYaml [1] Metadata.empty
      = .ok (Metadata.mk "v3" "mychart" "0.1.0") ∧
    LoadValues modelCb [5] = .ok [("a", Value.num 1)] ∧
    modelCb.parseLock [9] = .error "bad lock" ∧
    ((LoadFiles modelCb [BufferedFile.mk chartYamlName [1],
        BufferedFile.mk valuesYamlName [5],
        BufferedFile.mk chartLockName [9]]).2
      = some ("cannot load Chart.lock: " ++ "bad lock") ∧
    (LoadFiles modelCb [BufferedFile.mk chartYamlName [1],
        BufferedFile.mk valuesYamlName [5],
        BufferedFile.mk chartLockName [9]]).1.values
      = [("a", Value.num 1)] ∧
    (LoadFiles modelCb [BufferedFile.mk chartYamlName [1],
        BufferedFile.mk valuesYamlName [5],
        BufferedFile.mk chartLockName [9]]).1.metadata
      = some (defaultApi (Metadata.mk "v3" "mychart" "0.1.0")) ∧
    (LoadFiles modelCb [BufferedFile.mk chartYamlName [1],
        BufferedFile.mk valuesYamlName [5],
        BufferedFile.mk chartLockName [9]]).1.raw
      = [File.mk chartYamlName [1], File.mk valuesYamlName [5],
          File.mk chartLockName [9]]) :=
  ⟨rfl, rfl, rfl, claim_C5.2.2.1 modelCb [1] [5] [9]
    (Metadata.mk "v3" "mychart" "0.1.0") [("a", Value.num 1)] "bad lock"
    rfl rfl rfl⟩

/-- C4 (amended): the metadata-missing check runs after the second
classification pass and before structural validation: for every input
list with no Chart.yaml entry whose second pass succeeds, the assembly
fails with the distinct metadata-missing error regardless of the
validator, which is never consulted. -/
theorem claim_C4 (cb : Collab) (files : List BufferedFile) (st2 : AState)
    (gs2 : List (GoStr × List BufferedFile))
    (hno : ∀ f ∈ files, ¬(f.name = chartYamlName))
    (hp2 : pass2 cb
      { AState.empty with raw := files.map (fun f => File.mk f.name f.data) } []
      files = .ok (st2, gs2)) :
    LoadFiles cb files = (buildChart st2 [], some "Chart.yaml file is missing") := by
  have hp1 : pass1 cb AState.empty files
      = .ok { AState.empty with
          raw := files.map (fun f => File.mk f.name f.data) } := by
    rw [pass1_no_cy cb files AState.empty hno]
    rfl
  obtain ⟨_, hm2, _, _⟩ := pass2_ok cb files _ [] st2 gs2 hp2
  have hm : st2.metadata.isNone = true := by
    rw [hm2]
    rfl
  exact LoadFiles_eq_missing cb files _ st2 gs2 hp1 hp2 hm

unseal LoadFiles processGroups MergeMaps in
theorem claim_C4_cex :
    ¬(chartLockName = chartYamlName) ∧
    (LoadFiles modelCb [BufferedFile.mk chartLockName [9]]).2
      = some "cannot load Chart.lock: bad lock" ∧
    ¬((LoadFiles modelCb [BufferedFile.mk chartLockName [9]]).2
      = some "Chart.yaml file is missing") :=
  ⟨by decide, rfl, by decide⟩

/-- A collaborator instance whose structural validator rejects every
chart, to exhibit that the metadata-missing check precedes validation. -/
def validatorRejects : Collab :=
  { modelCb with validate := fun _ => some "metadata validation failed" }

theorem claim_C4_witness :
    pass2 validatorRejects
      { AState.empty with
        raw := [BufferedFile.mk chartLockName [1]].map
          (fun f => File.mk f.name f.data) } []
      [BufferedFile.mk chartLockName [1]]
      = .ok (AState.mk [File.mk chartLockName [1]] none (some (Lock.mk [1]))
          [] none [] [], []) ∧
    LoadFiles validatorRejects [BufferedFile.mk chartLockName [1]]
      = (buildChart (AState.mk [File.mk chartLockName [1]] none
          (some (Lock.mk [1])) [] none [] []) [],
        some "Chart.yaml file is missing") :=
  ⟨rfl,
    claim_C4 validatorRejects [BufferedFile.mk chartLockName [1]] _ _ (by decide) rfl⟩

/-- C3 (amended): with several Chart.yaml entries the last one wins
record-wise, not alone: on a successful assembly whose last Chart.yaml
entry carries bytes d, the final metadata is the decode of d into the
metadata record accumulated from the earlier files (with the api version
defaulted), so fields the last entry leaves untouched keep the values
earlier entries set. -/
theorem claim_C3 (cb : Collab) (xs : List BufferedFile) (d : List Nat)
    (ys : List BufferedFile) (c : Chart) (st' : AState) (md : Metadata)
    (hys : ∀ g ∈ ys, ¬(g.name = chartYamlName))
    (hx : pass1 cb AState.empty xs = .ok st')
    (hparse : cb.parseChartYaml d (st'.metadata.getD Metadata.empty) = .ok md)
    (h : LoadFiles cb (xs ++ BufferedFile.mk chartYamlName d :: ys) = (c, none)) :
    c.metadata = some (defaultApi md) := by
  obtain ⟨st1, st2, gs2, hp1, hp2, _, _, hpg⟩ := LoadFiles_ok_inv cb _ c h
  rw [pass1_append, hx] at hp1
  have hp1b : pass1 cb st' (BufferedFile.mk chartYamlName d :: ys) = .ok st1 := hp1
  have hstep : pass1 cb st' (BufferedFile.mk chartYamlName d :: ys)
      = pass1 cb
        { st' with
            raw := st'.raw ++ [File.mk chartYamlName d]
            metadata := some (defaultApi md) } ys := by
    rw [pass1]
    have hps : pass1Step cb st' (BufferedFile.mk chartYamlName d)
        = .ok
          { st' with
              raw := st'.raw ++ [File.mk chartYamlName d]
              metadata := some (defaultApi md) } := by
      unfold pass1Step
      rw [if_pos rfl]
      have hparse' : cb.parseChartYaml (BufferedFile.mk chartYamlName d).data
          (st'.metadata.getD Metadata.empty) = .ok md := hparse
      rw [hparse']
    rw [hps]
  rw [hstep, pass1_no_cy cb ys _ hys] at hp1b
  have h1 : st1.metadata = some (defaultApi md) := by
    rw [← Except.ok.inj hp1b]
  obtain ⟨_, hm2, _, _⟩ := pass2_ok cb _ st1 [] st2 gs2 hp2
  obtain ⟨deps2, hc⟩ := processGroups_chart cb gs2 st2 [] c none hpg
  rw [hc, buildChart_metadata, hm2, h1]

def exFilesC3 : List BufferedFile :=
  [BufferedFile.mk chartYamlName [1], BufferedFile.mk chartYamlName [2]]

def exChartC3 : Chart :=
  Chart.mk [File.mk chartYamlName [1], File.mk chartYamlName [2]]
    (some (Metadata.mk "v3" "mychart" "2.0.0")) none [] none [] [] []

unseal LoadFiles processGroups MergeMaps in
theorem claim_C3_cex :
    (LoadFiles modelCb exFilesC3).2 = none ∧
    modelCb.parseChartYaml [2] Metadata.empty = .ok (Metadata.mk "" "" "2.0.0") ∧
    (LoadFiles modelCb exFilesC3).1.metadata
      = some (Metadata.mk "v3" "mychart" "2.0.0") ∧
    ¬((LoadFiles modelCb exFilesC3).1.metadata
      = some (defaultApi (Metadata.mk "" "" "2.0.0"))) :=
  ⟨rfl, rfl, rfl, by decide⟩

def exStateC3 : AState :=
  AState.mk [File.mk chartYamlName [1]]
    (some (Metadata.mk "v3" "mychart" "0.1.0")) none [] none [] []

unseal LoadFiles processGroups MergeMaps in
theorem claim_C3_witness :
    pass1 modelCb AState.empty [BufferedFile.mk chartYamlName [1]]
      = .ok exStateC3 ∧
    modelCb.parseChartYaml [2] (exStateC3.metadata.getD Metadata.empty)
      = .ok (Metadata.mk "v3" "mychart" "2.0.0") ∧
    LoadFiles modelCb
      ([BufferedFile.mk chartYamlName [1]] ++ BufferedFile.mk chartYamlName [2] :: [])
      = (exChartC3, none) ∧
    exChartC3.metadata
      = some (defaultApi (Metadata.mk "v3" "mychart" "2.0.0")) :=
  ⟨rfl, rfl, rfl,
    claim_C3 modelCb [BufferedFile.mk chartYamlName [1]] [2] [] exChartC3
      exStateC3 (Metadata.mk "v3" "mychart" "2.0.0") (by simp) rfl rfl rfl⟩

unseal LoadFiles processGroups MergeMaps in
theorem loadC2_eval_err :
    (LoadFiles modelCb [BufferedFile.mk chartYamlName [1],
        BufferedFile.mk ("charts/x".data) [3]]).2
      = some "error unpacking subchart x in mychart: Chart.yaml file is missing" := rfl

unseal LoadFiles processGroups MergeMaps in
theorem loadC2_eval_deps :
    (LoadFiles modelCb [BufferedFile.mk chartYamlName [1],
        BufferedFile.mk ("charts/x".data) [3]]).1.dependencies = [] := rfl

/-- C2 (evaluating the code at the failing input): an input holding a
well-formed Chart.yaml plus a single entry charts/x with no further slash
(x neither .prov nor .tgz nor underscore- or dot-led) is not loaded
successfully: the member is dropped from its group's buffer, the group
becomes empty, and its recursive assembly fails, so the whole load
returns the wrapped metadata-missing error and no dependency — although
the source's own comment says such files are ignored. -/
theorem claim_C2 :
    (LoadFiles modelCb [BufferedFile.mk chartYamlName [1],
        BufferedFile.mk ("charts/x".data) [3]]).2
      = some "error unpacking subchart x in mychart: Chart.yaml file is missing" ∧
    (LoadFiles modelCb [BufferedFile.mk chartYamlName [1],
        BufferedFile.mk ("charts/x".data) [3]]).1.dependencies = [] :=
  ⟨loadC2_eval_err, loadC2_eval_deps⟩
